import Mathlib

/-!
Verification of the configuration service's validation, versioning and
template-rendering pipeline.

The Python sources are embedded shallowly:
* Python `str` values become `Str := List Char`.
* Parsed configuration documents (the values `yaml.safe_load` / `json.loads`
  produce) become the tree type `JValue`; Python `dict`s become association
  lists.  Floating-point numbers are outside the embedded universe (no claim
  depends on float arithmetic), so JSON numbers are integers here.
* Whatever lives behind `twisted.enterprise.adbapi` is a relational table of
  rows; `DBState` carries the rows together with the id sequence and a clock
  that stands for the backend's `NOW()`.
* Fallible Python code returns `Except`/`Option`; a raised exception is an
  `Except.error`.
-/

set_option maxRecDepth 20000

/-- Characters of a Python `str` value. -/
abbrev Str := List Char

/-- The opening curly bracket character (spelled via its code point). -/
def obrace : Char := Char.ofNat 123

/-- The closing curly bracket character (spelled via its code point). -/
def cbrace : Char := Char.ofNat 125

/-- The single-quote character, used inside several error messages. -/
def squote : Char := Char.ofNat 39

/-- The characters Python's `str.strip()` removes (the ASCII whitespace set;
the additional Unicode whitespace code points are irrelevant to every claim). -/
def pyIsSpace (c : Char) : Bool :=
  c == ' ' || c == '\t' || c == '\n' || c == '\r' || c == Char.ofNat 11 || c == Char.ofNat 12

/-- Python `s.strip()`: drop whitespace from both ends. -/
def pyStrip (s : Str) : Str :=
  ((s.dropWhile pyIsSpace).reverse.dropWhile pyIsSpace).reverse

/-- A parsed configuration document: the tree of values `yaml.safe_load` or
`json.loads` can produce (floats excluded, see the header note). -/
inductive JValue where
  | null
  | bool (b : Bool)
  | int (n : Int)
  | str (s : Str)
  | arr (elems : List JValue)
  | obj (entries : List (Str × JValue))

/-- A Python `dict` with string keys, as an association list in insertion
order (the order `json.dumps` serializes and `for k in d` iterates). -/
abbrev JObj := List (Str × JValue)

/-- Python `d.get(k)` / `k in d`: first binding of `k`, if any. -/
def alookup {α : Type} (k : Str) : List (Str × α) → Option α
  | [] => none
  | (k0, v) :: t => if k0 == k then some v else alookup k t

/-- Python `d[k] = v`: replace the value in place when the key exists,
append a new binding otherwise. -/
def aset {α : Type} (k : Str) (v : α) (d : List (Str × α)) : List (Str × α) :=
  if (alookup k d).isSome then d.map (fun kv => if kv.1 == k then (k, v) else kv)
  else d ++ [(k, v)]

/-- Build a `dict` from a pair sequence by successive assignment, as Python
does: position of first occurrence, value of last occurrence. -/
def dict_of_pairs {α : Type} (ps : List (Str × α)) : List (Str × α) :=
  ps.foldl (fun d kv => aset kv.1 kv.2 d) []

/-- No key bound twice (every actual Python `dict` satisfies this). -/
def nodupKeysB {α : Type} : List (Str × α) → Bool
  | [] => true
  | (k, _) :: t => !(alookup k t).isSome && nodupKeysB t

mutual
/-- A document every Python value satisfies: all nested objects have
pairwise-distinct keys. -/
def JValue.wfB : JValue → Bool
  | .null => true
  | .bool _ => true
  | .int _ => true
  | .str _ => true
  | .arr es => wfElemsB es
  | .obj kvs => nodupKeysB kvs && wfEntriesB kvs
def wfElemsB : List JValue → Bool
  | [] => true
  | v :: t => v.wfB && wfElemsB t
def wfEntriesB : List (Str × JValue) → Bool
  | [] => true
  | (_, v) :: t => v.wfB && wfEntriesB t
end

/-- Python `isinstance(x, int)` — `bool` is a subclass of `int`. -/
def pyIsIntLike : JValue → Bool
  | .int _ => true
  | .bool _ => true
  | _ => false

/-- The integer a Python `int`-like value stands for (`True` is `1`). -/
def pyIntVal : JValue → Int
  | .int n => n
  | .bool b => if b then 1 else 0
  | _ => 0

/-- Python `isinstance(x, str)`. -/
def pyIsStr : JValue → Bool
  | .str _ => true
  | _ => false

/-- Python truthiness of a document value (`bool(x)`). -/
def pyTruthy : JValue → Bool
  | .null => false
  | .bool b => b
  | .int n => !(n == 0)
  | .str s => !s.isEmpty
  | .arr l => !l.isEmpty
  | .obj l => !l.isEmpty

/-! ## `config_service/validation/schemas.py`

The `schema` library objects `REQUIRED_FIELDS_SCHEMA` and
`BASE_CONFIG_SCHEMA` are third-party; their evaluation on a `dict` is
embedded as the checks below, in the order the schema literals list the
keys.  The error strings model the library's `SchemaError` messages (their
exact wording is not load-bearing for any claim; what matters is which rule
produced them). -/

/-- `SchemaError` text for an absent `version` key. -/
def missing_version_msg : Str :=
  "Missing key: ".data ++ [squote] ++ "version".data ++ [squote]

/-- `SchemaError` text for a `version` value rejected by `REQUIRED_FIELDS_SCHEMA`. -/
def version_not_int_msg : Str :=
  "Key ".data ++ [squote] ++ "version".data ++ [squote] ++ " error: not an int".data

/-- `SchemaError` text for a `version` value rejected by `And(int, lambda v: v > 0)`. -/
def version_not_positive_msg : Str :=
  "Key ".data ++ [squote] ++ "version".data ++ [squote] ++ " error: not a positive int".data

/-- `SchemaError` text for a rejected `database` section. -/
def database_section_msg : Str :=
  "Key ".data ++ [squote] ++ "database".data ++ [squote] ++ " error: invalid section".data

/-- `SchemaError` text for a rejected `features` section. -/
def features_section_msg : Str :=
  "Key ".data ++ [squote] ++ "features".data ++ [squote] ++ " error: invalid section".data

/-- `REQUIRED_FIELDS_SCHEMA.validate`: the key `version` is required and must
be an `int`; every other key is `Optional(str): object`. -/
def required_fields_error (d : JObj) : Option Str :=
  match alookup ("version".data) d with
  | none => some missing_version_msg
  | some v => if pyIsIntLike v then none else some version_not_int_msg

/-- The `version` rule of `BASE_CONFIG_SCHEMA`: `And(int, lambda v: v > 0)`. -/
def version_rule_error (d : JObj) : Option Str :=
  match alookup ("version".data) d with
  | none => some missing_version_msg
  | some v =>
      if pyIsIntLike v && decide (0 < pyIntVal v) then none
      else some version_not_positive_msg

/-- The `database` rule of `BASE_CONFIG_SCHEMA`: when present, an object with
exactly the keys `host` (`And(str, len)`) and `port`
(`And(int, lambda p: 1 <= p <= 65535)`); the sub-schema has no catch-all, so
an unexpected key is rejected. -/
def database_rule_error (d : JObj) : Option Str :=
  match alookup ("database".data) d with
  | none => none
  | some (JValue.obj db) =>
      if !(db.all (fun kv => kv.1 == "host".data || kv.1 == "port".data)) then
        some database_section_msg
      else
        match alookup ("host".data) db with
        | none => some database_section_msg
        | some h =>
            if !(pyIsStr h && pyTruthy h) then some database_section_msg
            else
              match alookup ("port".data) db with
              | none => some database_section_msg
              | some p =>
                  if pyIsIntLike p && decide (1 ≤ pyIntVal p) && decide (pyIntVal p ≤ 65535) then
                    none
                  else some database_section_msg
  | some _ => some database_section_msg

/-- A value `Or(bool, str, int, float)` accepts (floats are outside the
embedded universe, see the header note). -/
def feature_value_ok : JValue → Bool
  | .bool _ => true
  | .str _ => true
  | .int _ => true
  | _ => false

/-- The `features` rule of `BASE_CONFIG_SCHEMA`: when present, an object whose
values each satisfy `Or(bool, str, int, float)`. -/
def features_rule_error (d : JObj) : Option Str :=
  match alookup ("features".data) d with
  | none => none
  | some (JValue.obj fs) =>
      if fs.all (fun kv => feature_value_ok kv.2) then none else some features_section_msg
  | some _ => some features_section_msg

/-- `BASE_CONFIG_SCHEMA.validate`: first failing rule wins (the library raises
on the first violation it meets). -/
def base_schema_error (d : JObj) : Option Str :=
  match version_rule_error d with
  | some e => some e
  | none =>
      match database_rule_error d with
      | some e => some e
      | none => features_rule_error d

/-- `validate_config_schema`: required fields first, then the full schema —
but only when a `database` section is present; errors are re-raised with the
prefix `Validation error: `. -/
def validate_config_schema (d : JObj) : Except Str Unit :=
  match required_fields_error d with
  | some e => Except.error ("Validation error: ".data ++ e)
  | none =>
      if (alookup ("database".data) d).isSome then
        match base_schema_error d with
        | some e => Except.error ("Validation error: ".data ++ e)
        | none => Except.ok ()
      else Except.ok ()

/-- The Python exception `get_validation_errors` can raise: `database` bound
to a non-dict makes `db_config.get('host')` an `AttributeError`. -/
inductive PyExc where
  | attributeError
deriving DecidableEq

/-- Error text appended by the extra `database.host` check. -/
def host_check_msg : Str := "database.host must be a non-empty string".data

/-- Error text appended by the extra `database.port` check. -/
def port_check_msg : Str := "database.port must be an integer between 1 and 65535".data

/-- The list the schema error (if any) seeds `get_validation_errors` with:
`errors.append(str(e))` on a raised `SchemaError`, nothing otherwise. -/
def schema_error_list (d : JObj) : List Str :=
  match validate_config_schema d with
  | Except.error e => [e]
  | Except.ok _ => []

/-- `get_validation_errors`: collect the schema error (if any), then run the
two extra `database` checks, accumulating rather than short-circuiting. -/
def get_validation_errors (d : JObj) : Except PyExc (List Str) :=
  let errors0 : List Str := schema_error_list d
  match alookup ("database".data) d with
  | none => Except.ok errors0
  | some (JValue.obj db) =>
      let hostv := (alookup ("host".data) db).getD JValue.null
      let errors1 :=
        if !(pyTruthy hostv) || !(pyIsStr hostv) then errors0 ++ [host_check_msg] else errors0
      let portOk :=
        match alookup ("port".data) db with
        | some p => pyIsIntLike p && decide (1 ≤ pyIntVal p) && decide (pyIntVal p ≤ 65535)
        | none => false
      let errors2 := if !portOk then errors1 ++ [port_check_msg] else errors1
      Except.ok errors2
  | some _ => Except.error PyExc.attributeError

/-- `ConfigValidator.validate`: `(is_valid, errors_list)`. -/
def ConfigValidator.validate (d : JObj) : Except PyExc (Bool × List Str) :=
  match get_validation_errors d with
  | Except.error e => Except.error e
  | Except.ok errs => Except.ok (errs.isEmpty, errs)

/-! ## `config_service/validation/validators.py` -/

/-- The outcome of the external `yaml.safe_load` call, passed to the embedded
`parse_yaml` as an oracle: the library either returns a value or raises one of
the three exception classes the source distinguishes. -/
inductive YamlLoad where
  | val (v : JValue)
  | scanError (msg : Str)
  | parseError (msg : Str)
  | otherError (msg : Str)

/-- `isinstance(data, dict)`. -/
def JValue.isObj : JValue → Bool
  | .obj _ => true
  | _ => false

/-- `YAMLValidator.parse_yaml`: `(success, parsed_data, error_message)`.
The blank-input guard runs before the loader is ever consulted. -/
def YAMLValidator.parse_yaml (yaml_content : Str) (loaded : YamlLoad) :
    Bool × Option JValue × Option Str :=
  if yaml_content.isEmpty || (pyStrip yaml_content).isEmpty then
    (false, none, some ("Empty YAML content".data))
  else
    match loaded with
    | YamlLoad.val v =>
        if v.isObj then (true, some v, none)
        else (false, none, some ("YAML must represent a dictionary/object".data))
    | YamlLoad.scanError m => (false, none, some ("YAML syntax error: ".data ++ m))
    | YamlLoad.parseError m => (false, none, some ("YAML parsing error: ".data ++ m))
    | YamlLoad.otherError m => (false, none, some ("YAML processing error: ".data ++ m))

/-! ## `config_service/db/connection.py` and `models.py` -/

/-- One row of the `configurations` table, also the value
`ConfigurationModel` wraps. -/
structure ConfigurationModel where
  id : Nat
  service : Str
  version : Int
  payload : JObj
  created_at : Nat

/-- The relational backend: rows in insertion order, the id sequence, and a
clock standing for the `created_at` timestamps the backend assigns. -/
structure DBState where
  rows : List ConfigurationModel
  next_id : Nat
  clock : Nat

/-- `WHERE service = %s`. -/
def rows_for (st : DBState) (service : Str) : List ConfigurationModel :=
  st.rows.filter (fun r => r.service == service)

/-- `SELECT MAX(version)` over a row list (`NULL` on no rows). -/
def max_versionQ : List ConfigurationModel → Option Int
  | [] => none
  | r :: t =>
      match max_versionQ t with
      | none => some r.version
      | some m => some (max r.version m)

/-- `SELECT COALESCE(MAX(version), 0) FROM configurations WHERE service = %s`. -/
def max_version (st : DBState) (service : Str) : Int :=
  (max_versionQ (rows_for st service)).getD 0

/-- The failure mode `save_configuration` has besides backend loss: inserting
a non-integer `version` into the integer column raises. -/
inductive DBErr where
  | typeError
deriving DecidableEq

/-- `DatabaseConnection.save_configuration`: `payload.get('version')` absent
(or `None`) means read the service's maximum version and assign `max + 1`,
writing it back into the payload; an integer value is trusted as-is with no
duplicate check; the insert appends a row and returns the model built from
`RETURNING id, created_at`. -/
def DatabaseConnection.save_configuration (st : DBState) (service : Str) (payload : JObj) :
    Except DBErr (ConfigurationModel × DBState) :=
  match alookup ("version".data) payload with
  | some (JValue.int v) =>
      let row : ConfigurationModel :=
        { id := st.next_id, service := service, version := v, payload := payload,
          created_at := st.clock }
      Except.ok (row, { rows := st.rows ++ [row], next_id := st.next_id + 1,
                        clock := st.clock + 1 })
  | some JValue.null =>
      let v := max_version st service + 1
      let payload2 := aset ("version".data) (JValue.int v) payload
      let row : ConfigurationModel :=
        { id := st.next_id, service := service, version := v, payload := payload2,
          created_at := st.clock }
      Except.ok (row, { rows := st.rows ++ [row], next_id := st.next_id + 1,
                        clock := st.clock + 1 })
  | none =>
      let v := max_version st service + 1
      let payload2 := aset ("version".data) (JValue.int v) payload
      let row : ConfigurationModel :=
        { id := st.next_id, service := service, version := v, payload := payload2,
          created_at := st.clock }
      Except.ok (row, { rows := st.rows ++ [row], next_id := st.next_id + 1,
                        clock := st.clock + 1 })
  | some _ => Except.error DBErr.typeError

/-- Insert into a list already sorted by non-increasing `version`. -/
def insert_desc (r : ConfigurationModel) : List ConfigurationModel → List ConfigurationModel
  | [] => [r]
  | x :: t => if r.version ≤ x.version then x :: insert_desc r t else r :: x :: t

/-- `ORDER BY version DESC` (the order among equal versions is the backend's
choice; this model keeps earlier rows first). -/
def sort_desc : List ConfigurationModel → List ConfigurationModel
  | [] => []
  | r :: t => insert_desc r (sort_desc t)

/-- `DatabaseConnection.get_configuration`: without a version, the first row
of `ORDER BY version DESC LIMIT 1`; with one, the exact `(service, version)`
match; an empty result is `None`, not an error. -/
def DatabaseConnection.get_configuration (st : DBState) (service : Str)
    (version : Option Int) : Option ConfigurationModel :=
  match version with
  | none => (sort_desc (rows_for st service)).head?
  | some v => (rows_for st service).find? (fun r => r.version == v)

/-- `ConfigHistoryItem`: the `(version, created_at)` projection of a row. -/
structure ConfigHistoryItem where
  version : Int
  created_at : Nat
deriving DecidableEq

/-- `DatabaseConnection.get_configuration_history`: all of the service's rows,
`ORDER BY version DESC`, projected to history items. -/
def DatabaseConnection.get_configuration_history (st : DBState) (service : Str) :
    List ConfigHistoryItem :=
  (sort_desc (rows_for st service)).map
    (fun r => { version := r.version, created_at := r.created_at })

/-! ## `config_service/api/handlers.py` (the history endpoint) -/

/-- The `ApiResponse` shape the history handler produces. -/
structure HistoryApiResponse where
  data : Option (List ConfigHistoryItem)
  error : Option Str
  status_code : Nat

/-- The 404 message `f"No configuration history found for service '{service}'"`. -/
def no_history_msg (service : Str) : Str :=
  "No configuration history found for service ".data ++ [squote] ++ service ++ [squote]

/-- `ConfigurationHandler.get_configuration_history`: an empty history becomes
a 404 error response; a non-empty one is returned as data with status 200. -/
def ConfigurationHandler.get_configuration_history (st : DBState) (service : Str) :
    HistoryApiResponse :=
  if (DatabaseConnection.get_configuration_history st service).isEmpty then
    { data := none, error := some (no_history_msg service), status_code := 404 }
  else
    { data := some (DatabaseConnection.get_configuration_history st service), error := none,
      status_code := 200 }

/-! ## `json.dumps(config_data, ensure_ascii=False, indent=2)`

`TemplateRenderer.render_config_template` serializes the document with the
standard library's `json.dumps`; the serializer is embedded below, producing
`List Char` directly. -/

/-- Lowercase hexadecimal digit for `n < 16`. -/
def hexDigitChar (n : Nat) : Char :=
  if n < 10 then Char.ofNat ('0'.toNat + n) else Char.ofNat ('a'.toNat + n - 10)

/-- JSON escape of one character, as `json.dumps` with `ensure_ascii=False`
writes it: short escapes for the quote, the backslash and the five named
control characters, `\u00XX` for the remaining control characters, and
everything else verbatim. -/
def escapeChar (c : Char) : List Char :=
  if c == '"' then ['\\', '"']
  else if c == '\\' then ['\\', '\\']
  else if c == '\n' then ['\\', 'n']
  else if c == '\r' then ['\\', 'r']
  else if c == '\t' then ['\\', 't']
  else if c == Char.ofNat 8 then ['\\', 'b']
  else if c == Char.ofNat 12 then ['\\', 'f']
  else if c.toNat < 32 then
    ['\\', 'u', '0', '0', hexDigitChar (c.toNat / 16), hexDigitChar (c.toNat % 16)]
  else [c]

/-- Escape a whole string body. -/
def escapeAll : Str → List Char
  | [] => []
  | c :: t => escapeChar c ++ escapeAll t

/-- A JSON string literal: quote, escaped body, quote. -/
def encStr (s : Str) : List Char := '"' :: (escapeAll s ++ ['"'])

/-- The decimal digit character for `n < 10`. -/
def digitChar (n : Nat) : Char := Char.ofNat ('0'.toNat + n)

/-- Decimal digits of `n`, most significant first, prepended to `acc`;
structural on a fuel argument (any fuel `≥ n` gives the digits of `n`) so
that it evaluates by kernel reduction. -/
def natDigitsGo : Nat → Nat → List Char → List Char
  | 0, n, acc => digitChar (n % 10) :: acc
  | f + 1, n, acc =>
      if n < 10 then digitChar n :: acc
      else natDigitsGo f (n / 10) (digitChar (n % 10) :: acc)

/-- The decimal digit characters of `n`. -/
def natChars (n : Nat) : List Char := natDigitsGo n n []

/-- Python `repr` of an integer: optional minus sign, then decimal digits. -/
def intChars (i : Int) : List Char :=
  (if i < 0 then ['-'] else []) ++ natChars i.natAbs

/-- `n` space characters (the `indent=2` indentation). -/
def mkIndent : Nat → List Char
  | 0 => []
  | n + 1 => ' ' :: mkIndent n

mutual
/-- `json.dumps(value, ensure_ascii=False, indent=2)` while `ind` columns
deep: with an indent the separators are `,` + newline and `: `, non-empty
containers open with a newline and close on a fresh indented line, and empty
containers print without any newline. -/
def dumpsV : Nat → JValue → List Char
  | _, .null => "null".data
  | _, .bool true => "true".data
  | _, .bool false => "false".data
  | _, .int n => intChars n
  | _, .str s => encStr s
  | ind, .arr es =>
      match es with
      | [] => ['[', ']']
      | _ :: _ => '[' :: '\n' :: (dumpsElems (ind + 2) es ++ '\n' :: (mkIndent ind ++ [']']))
  | ind, .obj kvs =>
      match kvs with
      | [] => [obrace, cbrace]
      | _ :: _ =>
          obrace :: '\n' :: (dumpsEntries (ind + 2) kvs ++ '\n' :: (mkIndent ind ++ [cbrace]))
def dumpsElems : Nat → List JValue → List Char
  | _, [] => []
  | ind, [e] => mkIndent ind ++ dumpsV ind e
  | ind, e :: x :: t => mkIndent ind ++ (dumpsV ind e ++ ',' :: '\n' :: dumpsElems ind (x :: t))
def dumpsEntries : Nat → List (Str × JValue) → List Char
  | _, [] => []
  | ind, [(k, v)] => mkIndent ind ++ (encStr k ++ ':' :: ' ' :: dumpsV ind v)
  | ind, (k, v) :: kv :: t =>
      mkIndent ind ++ (encStr k ++ ':' :: ' ' ::
        (dumpsV ind v ++ ',' :: '\n' :: dumpsEntries ind (kv :: t)))
end

/-- `json.dumps(value, ensure_ascii=False, indent=2)`. -/
def json_dumps (v : JValue) : List Char := dumpsV 0 v

/-- The serialized text following a first array element: the separator and
the remaining elements, or the closing line (indent `k`, elements at `ind`).
Only used to state the round-trip lemmas. -/
def elemsTail (ind k : Nat) (es : List JValue) (rest : List Char) : List Char :=
  match es with
  | [] => '\n' :: (mkIndent k ++ (']' :: rest))
  | x :: t =>
      ',' :: '\n' :: (dumpsElems ind (x :: t) ++ ('\n' :: (mkIndent k ++ (']' :: rest))))

/-- The serialized text following a first object key: the key separator, the
value, then the member separator and remaining members or the closing line.
Only used to state the round-trip lemmas. -/
def entriesTail (ind k : Nat) (v : JValue) (kvs : List (Str × JValue))
    (rest : List Char) : List Char :=
  ':' :: ' ' :: (dumpsV ind v ++
    match kvs with
    | [] => '\n' :: (mkIndent k ++ (cbrace :: rest))
    | kv2 :: t2 =>
        ',' :: '\n' :: (dumpsEntries ind (kv2 :: t2) ++
          ('\n' :: (mkIndent k ++ (cbrace :: rest)))))

/-! ## `json.loads` (the re-parse step of the renderer)

A standard recursive-descent JSON reader over `List Char`, structural on a
fuel argument; `json_loads` runs it with ample fuel.  Fraction and exponent
suffixes after an integer literal are refused (a float would leave the
embedded universe, see the header note); everything else follows the
`json.loads` grammar with `strict=True`. -/

/-- ASCII decimal digit test. -/
def isDigitCh (c : Char) : Bool := '0' ≤ c && c ≤ '9'

/-- The whitespace `json.loads` skips between tokens. -/
def isJsonWs (c : Char) : Bool := c == ' ' || c == '\t' || c == '\n' || c == '\r'

/-- Skip inter-token whitespace. -/
def dropWs : List Char → List Char
  | [] => []
  | c :: t => if isJsonWs c then dropWs t else c :: t

/-- Take the longest leading digit run. -/
def grabDigits : List Char → List Char × List Char
  | [] => ([], [])
  | c :: t =>
      if isDigitCh c then
        let p := grabDigits t
        (c :: p.1, p.2)
      else ([], c :: t)

/-- The number a digit run denotes. -/
def digitsNat (ds : List Char) : Nat :=
  ds.foldl (fun a c => a * 10 + (c.toNat - '0'.toNat)) 0

/-- The single-character escapes `json.loads` accepts. -/
def unescCh (ch : Char) : Option Char :=
  if ch == '"' then some '"'
  else if ch == '\\' then some '\\'
  else if ch == '/' then some '/'
  else if ch == 'n' then some '\n'
  else if ch == 'r' then some '\r'
  else if ch == 't' then some '\t'
  else if ch == 'b' then some (Char.ofNat 8)
  else if ch == 'f' then some (Char.ofNat 12)
  else none

/-- Value of one hexadecimal digit. -/
def hexNum (ch : Char) : Option Nat :=
  if '0' ≤ ch && ch ≤ '9' then some (ch.toNat - '0'.toNat)
  else if 'a' ≤ ch && ch ≤ 'f' then some (ch.toNat - 'a'.toNat + 10)
  else if 'A' ≤ ch && ch ≤ 'F' then some (ch.toNat - 'A'.toNat + 10)
  else none

/-- Read a string body after the opening quote: escapes are decoded, a raw
control character is refused (`strict=True`), the closing quote ends it. -/
def strBody (acc : List Char) : List Char → Option (Str × List Char)
  | [] => none
  | '"' :: r => some (acc.reverse, r)
  | '\\' :: 'u' :: a :: b :: c :: d :: r =>
      match hexNum a, hexNum b, hexNum c, hexNum d with
      | some x1, some x2, some x3, some x4 =>
          strBody (Char.ofNat (((x1 * 16 + x2) * 16 + x3) * 16 + x4) :: acc) r
      | _, _, _, _ => none
  | '\\' :: e :: r =>
      (match unescCh e with
       | some ch => strBody (ch :: acc) r
       | none => none)
  | c :: r => if c.toNat < 32 then none else strBody (c :: acc) r

/-- A character that would extend an integer literal into a float literal. -/
def floatFollows : List Char → Bool
  | [] => false
  | c :: _ => c == '.' || c == 'e' || c == 'E'

/-- A digit run the JSON number grammar rejects: a leading zero followed by
more digits. -/
def leadingZero : List Char → Bool
  | c :: _ :: _ => c == '0'
  | _ => false

/-- A remainder that cannot extend an integer literal: empty, or starting
with none of a digit, a dot, or an exponent letter. -/
def intStop : List Char → Bool
  | [] => true
  | c :: _ => !(isDigitCh c || c == '.' || c == 'e' || c == 'E')

/-- Read an integer literal: optional minus sign, then a digit run that the
grammar accepts, not continued by a fraction or exponent. -/
def parseIntTok (l : List Char) : Option (Int × List Char) :=
  match l with
  | '-' :: r =>
      (match grabDigits r with
       | ([], _) => none
       | (ds, rest) =>
           if leadingZero ds || floatFollows rest then none
           else some (-(digitsNat ds : Int), rest))
  | _ =>
      (match grabDigits l with
       | ([], _) => none
       | (ds, rest) =>
           if leadingZero ds || floatFollows rest then none
           else some ((digitsNat ds : Int), rest))

mutual
/-- Read one JSON value (after optional whitespace); `none` is a
`json.JSONDecodeError`. -/
def parseVal : Nat → List Char → Option (JValue × List Char)
  | 0, _ => none
  | f + 1, l =>
      match dropWs l with
      | 'n' :: 'u' :: 'l' :: 'l' :: r => some (JValue.null, r)
      | 't' :: 'r' :: 'u' :: 'e' :: r => some (JValue.bool true, r)
      | 'f' :: 'a' :: 'l' :: 's' :: 'e' :: r => some (JValue.bool false, r)
      | '"' :: r =>
          (match strBody [] r with
           | some p => some (JValue.str p.1, p.2)
           | none => none)
      | '[' :: r =>
          (match dropWs r with
           | ']' :: r2 => some (JValue.arr [], r2)
           | l2 =>
               match parseElems f l2 with
               | some p => some (JValue.arr p.1, p.2)
               | none => none)
      | c :: r =>
          if c == obrace then
            match dropWs r with
            | [] => none
            | c2 :: r2 =>
                if c2 == cbrace then some (JValue.obj [], r2)
                else
                  match parseEntries f (c2 :: r2) with
                  | some p => some (JValue.obj (dict_of_pairs p.1), p.2)
                  | none => none
          else
            match parseIntTok (c :: r) with
            | some p => some (JValue.int p.1, p.2)
            | none => none
      | [] => none
/-- Read one-or-more comma-separated array elements up to the closing `]`. -/
def parseElems : Nat → List Char → Option (List JValue × List Char)
  | 0, _ => none
  | f + 1, l =>
      match parseVal f l with
      | none => none
      | some (v, r) =>
          match dropWs r with
          | ',' :: r2 =>
              (match parseElems f r2 with
               | some p => some (v :: p.1, p.2)
               | none => none)
          | ']' :: r2 => some ([v], r2)
          | _ => none
/-- Read one-or-more `"key": value` members up to the closing brace; the
member list is turned into a `dict` by successive assignment, as
`json.loads` builds its objects. -/
def parseEntries : Nat → List Char → Option (List (Str × JValue) × List Char)
  | 0, _ => none
  | f + 1, l =>
      match dropWs l with
      | '"' :: r =>
          (match strBody [] r with
           | none => none
           | some (k, r1) =>
               match dropWs r1 with
               | ':' :: r2 =>
                   (match parseVal f r2 with
                    | none => none
                    | some (v, r3) =>
                        match dropWs r3 with
                        | ',' :: r4 =>
                            (match parseEntries f r4 with
                             | some p => some ((k, v) :: p.1, p.2)
                             | none => none)
                        | c :: r4 => if c == cbrace then some ([(k, v)], r4) else none
                        | [] => none)
               | _ => none)
      | _ => none
end

/-- `json.loads`: one value, optionally surrounded by whitespace, and
nothing after it. -/
def json_loads (l : List Char) : Option JValue :=
  match parseVal (l.length + 1) l with
  | some (v, r) => if (dropWs r).isEmpty then some v else none
  | none => none

/-! ## `config_service/templates/renderer.py`

The Jinja2 engine is third-party; it is embedded for exactly the fragment
the configuration pipeline exercises: plain text is copied through,
`variable` substitutions (delimited by doubled opening and closing curly
brackets) insert the context value — an undefined name renders as the empty
string, the default `Undefined` behaviour — comments (opening bracket +
`#` … `#` + closing bracket) disappear, and a statement opener (opening
bracket + `%`) is a failure (no control statement occurs in any claim, and
an unknown tag is a `TemplateSyntaxError` in the real engine).  An
unterminated construct is likewise a failure. -/

/-- Split at the first occurrence of the two-character closer `c1 c2`:
the text before it and the text after it. -/
def splitAtCloser (c1 c2 : Char) : List Char → Option (List Char × List Char)
  | a :: b :: t =>
      if a == c1 && b == c2 then some ([], t)
      else
        match splitAtCloser c1 c2 (b :: t) with
        | some p => some (a :: p.1, p.2)
        | none => none
  | _ => none

/-- A character of a template variable name. -/
def isIdentCh (c : Char) : Bool := c.isAlpha || c.isDigit || c == '_'

/-- The expression fragment the model substitutes: a plain variable name. -/
def isIdent (s : Str) : Bool := !s.isEmpty && s.all isIdentCh

/-- One pass of template evaluation (structural on fuel; every recursive call
is on a strict suffix, so the wrapper's `length + 1` always suffices). -/
def renderTpl (ctx : List (Str × Str)) : Nat → List Char → Option (List Char)
  | 0, _ => none
  | _ + 1, [] => some []
  | f + 1, a :: t =>
      if a == obrace then
        match t with
        | [] => some [a]
        | b :: t2 =>
            if b == obrace then
              match splitAtCloser cbrace cbrace t2 with
              | none => none
              | some (inner, after) =>
                  if isIdent (pyStrip inner) then
                    match renderTpl ctx f after with
                    | some out => some (((alookup (pyStrip inner) ctx).getD []) ++ out)
                    | none => none
                  else none
            else if b == '%' then none
            else if b == '#' then
              match splitAtCloser '#' cbrace t2 with
              | none => none
              | some p => renderTpl ctx f p.2
            else
              match renderTpl ctx f t with
              | some out => some (a :: out)
              | none => none
      else
        match renderTpl ctx f t with
        | some out => some (a :: out)
        | none => none

/-- `template.render(**context)` on a template string. -/
def render_string (ctx : List (Str × Str)) (l : List Char) : Option (List Char) :=
  renderTpl ctx (l.length + 1) l

/-- The two failure kinds of `render_config_template` (both re-raised as
`ValueError`): a template error, or a rendering result `json.loads` rejects. -/
inductive RenderErr where
  | templateFailed
  | invalidJson
deriving DecidableEq

/-- `TemplateRenderer.render_config_template`: dump the document to JSON
text, render that text as a template against the context, parse the result
back into a document. -/
def render_config_template (config_data : JValue) (context : List (Str × Str)) :
    Except RenderErr JValue :=
  match render_string context (json_dumps config_data) with
  | none => Except.error RenderErr.templateFailed
  | some rendered =>
      match json_loads rendered with
      | none => Except.error RenderErr.invalidJson
      | some v => Except.ok v

/-- The `default_context` dictionary of
`ConfigTemplateProcessor.process_template_request`. -/
def default_context (template_params : List (Str × Str)) : List (Str × Str) :=
  [("user".data, (alookup ("user".data) template_params).getD ("anonymous".data)),
   ("env".data, (alookup ("env".data) template_params).getD ("development".data)),
   ("timestamp".data, (alookup ("timestamp".data) template_params).getD [])]

/-- The merge `context = \x7b**default_context, **template_params\x7d`. -/
def merged_context (template_params : List (Str × Str)) : List (Str × Str) :=
  dict_of_pairs (default_context template_params ++ template_params)

/-- `ConfigTemplateProcessor.process_template_request`. -/
def ConfigTemplateProcessor.process_template_request (config_data : JValue)
    (template_params : List (Str × Str)) : Except RenderErr JValue :=
  render_config_template config_data (merged_context template_params)

/-- The fixed fallback values of the default context, for stating how the
merge behaves. -/
def fixed_defaults : List (Str × Str) :=
  [("user".data, "anonymous".data),
   ("env".data, "development".data),
   ("timestamp".data, [])]

/-- Scan for an occurrence of the two-character sequence `c1 c2`. -/
def twoCharsAt (c1 c2 : Char) : List Char → Bool
  | a :: b :: t => (a == c1 && b == c2) || twoCharsAt c1 c2 (b :: t)
  | _ => false

/-- The probe `has_template_syntax` uses, on an already-serialized text: a
doubled opening bracket or an opening bracket followed by `%`. -/
def has_subst_markers (l : List Char) : Bool :=
  twoCharsAt obrace obrace l || twoCharsAt obrace '%' l

/-- A template comment opener: an opening bracket followed by `#`. -/
def has_comment_marker (l : List Char) : Bool := twoCharsAt obrace '#' l

/-- A `features` value the full schema would reject. -/
def featuresBad : JValue → Bool
  | .obj fs => !(fs.all (fun kv => feature_value_ok kv.2))
  | _ => true

/-- Strict descent of an integer sequence. -/
def strictly_desc : List Int → Bool
  | a :: b :: t => decide (b < a) && strictly_desc (b :: t)
  | _ => true

/-- Left-biased choice, for stating dictionary-merge lookups. -/
def optOr {α : Type} : Option α → Option α → Option α
  | some x, _ => some x
  | none, b => b

/-! ## Supporting lemmas -/

/-- Inversion of `ConfigValidator.validate` on a returned outcome. -/
theorem validate_ok_inv (d : JObj) (res : Bool × List Str)
    (h : ConfigValidator.validate d = Except.ok res) :
    get_validation_errors d = Except.ok res.2 ∧ res.1 = res.2.isEmpty := by
  unfold ConfigValidator.validate at h
  cases hg : get_validation_errors d with
  | error e => rw [hg] at h; cases h
  | ok errs => rw [hg] at h; cases h; exact ⟨rfl, rfl⟩

/-- Whatever `get_validation_errors` returns starts with the schema error
list; the extra `database` checks only append. -/
theorem gve_ok_extends (d : JObj) (errs : List Str)
    (h : get_validation_errors d = Except.ok errs) :
    ∃ extra, errs = schema_error_list d ++ extra := by
  unfold get_validation_errors at h
  cases hdb : alookup ("database".data) d with
  | none =>
      rw [hdb] at h
      cases h
      exact ⟨[], by simp⟩
  | some v =>
      rw [hdb] at h
      cases v with
      | obj db =>
          simp only [Except.ok.injEq] at h
          subst h
          split
          · split
            · exact ⟨_, by rw [List.append_assoc]⟩
            · exact ⟨_, rfl⟩
          · split
            · exact ⟨_, rfl⟩
            · exact ⟨[], by simp⟩
      | null => cases h
      | bool b => cases h
      | int n => cases h
      | str s => cases h
      | arr l => cases h

/-- A document with no `version` key makes `validate_config_schema` fail with
the missing-key message. -/
theorem schema_error_list_missing_version (d : JObj)
    (hv : alookup ("version".data) d = none) :
    schema_error_list d = [("Validation error: ".data ++ missing_version_msg)] := by
  unfold schema_error_list validate_config_schema required_fields_error
  rw [hv]

/-- A bad `features` value present in the document makes the `features` rule
of the full schema fail. -/
theorem features_rule_error_some (d : JObj) (fv : JValue)
    (hf : alookup ("features".data) d = some fv) (hbad : featuresBad fv = true) :
    features_rule_error d = some features_section_msg := by
  unfold features_rule_error
  rw [hf]
  cases fv with
  | obj fs =>
      unfold featuresBad at hbad
      rw [Bool.not_eq_true'] at hbad
      simp [hbad]
  | null => rfl
  | bool b => rfl
  | int n => rfl
  | str s => rfl
  | arr l => rfl

/-- A `version` value the full schema accepts also satisfies the
required-fields schema. -/
theorem required_none_of_version_rule_none (d : JObj)
    (h : version_rule_error d = none) : required_fields_error d = none := by
  unfold version_rule_error at h
  unfold required_fields_error
  cases hv : alookup ("version".data) d with
  | none => rw [hv] at h; cases h
  | some v =>
      rw [hv] at h
      dsimp only at h ⊢
      by_cases hc : (pyIsIntLike v && decide (0 < pyIntVal v)) = true
      · rw [Bool.and_eq_true] at hc
        simp [hc.1]
      · rw [if_neg hc] at h; cases h

/-- With a `database` key present, a bad `features` value forces
`validate_config_schema` to fail (with one error or another). -/
theorem vcs_error_of_bad_features (d : JObj) (fv : JValue)
    (hf : alookup ("features".data) d = some fv) (hbad : featuresBad fv = true)
    (hdb : (alookup ("database".data) d).isSome = true) :
    ∃ e, validate_config_schema d = Except.error e := by
  unfold validate_config_schema
  cases hreq : required_fields_error d with
  | some e => exact ⟨_, rfl⟩
  | none =>
      rw [if_pos hdb]
      unfold base_schema_error
      cases hv1 : version_rule_error d with
      | some e => exact ⟨_, rfl⟩
      | none =>
          cases hd1 : database_rule_error d with
          | some e => exact ⟨_, rfl⟩
          | none => rw [features_rule_error_some d fv hf hbad]; exact ⟨_, rfl⟩

/-- When everything but `features` passes, the schema error is exactly the
`features` one. -/
theorem vcs_features_message (d : JObj) (fv : JValue)
    (hf : alookup ("features".data) d = some fv) (hbad : featuresBad fv = true)
    (hdb : (alookup ("database".data) d).isSome = true)
    (h1 : version_rule_error d = none) (h2 : database_rule_error d = none) :
    validate_config_schema d =
      Except.error ("Validation error: ".data ++ features_section_msg) := by
  unfold validate_config_schema
  rw [required_none_of_version_rule_none d h1, if_pos hdb]
  unfold base_schema_error
  rw [h1, h2, features_rule_error_some d fv hf hbad]

/-! ## Claim theorems: the schema validator -/

/-- Claim C1 (amended): a parsed document with no `version` field is reported
invalid by the schema validator, with the missing-version violation in the
error list — the absence of `version` is *not* legal for the validator
(`REQUIRED_FIELDS_SCHEMA` lists `version` as required). -/
theorem C1_missing_version_reported (d : JObj) (res : Bool × List Str)
    (hv : alookup ("version".data) d = none)
    (hres : ConfigValidator.validate d = Except.ok res) :
    res.1 = false ∧ ("Validation error: ".data ++ missing_version_msg) ∈ res.2 := by
  obtain ⟨hg, hb⟩ := validate_ok_inv d res hres
  obtain ⟨extra, he⟩ := gve_ok_extends d res.2 hg
  rw [schema_error_list_missing_version d hv] at he
  constructor
  · rw [hb, he]; rfl
  · rw [he]; exact List.mem_append_left _ (List.mem_singleton_self _)

/-- Claim C1, counterexample to the claim as stated: the empty document has
no `version` field, yet the validator reports it invalid with precisely a
version-related violation. -/
theorem C1_counterexample :
    ConfigValidator.validate [] =
      Except.ok (false, [("Validation error: ".data ++ missing_version_msg)]) := rfl

/-- Claim C1, witness: the amended theorem applied to the empty document. -/
theorem C1_missing_version_reported_witness :
    ((false, [("Validation error: ".data ++ missing_version_msg)]) : Bool × List Str).1
        = false ∧
      ("Validation error: ".data ++ missing_version_msg) ∈
        ((false, [("Validation error: ".data ++ missing_version_msg)]) : Bool × List Str).2 :=
  C1_missing_version_reported [] _ rfl rfl

/-- Claim C2: validating the Scenario-B document yields `valid = false` with
both the missing-version violation and the port-range violation accumulated
in the one outcome. -/
theorem C2_scenario_B :
    ConfigValidator.validate
      [("database".data,
        JValue.obj [("host".data, JValue.str ("localhost".data)),
                    ("port".data, JValue.int 99999)])] =
      Except.ok (false,
        [("Validation error: ".data ++ missing_version_msg), port_check_msg]) := rfl

/-- Claim C4 (amended): a bad `features` value makes the outcome invalid
*provided a `database` field is also present* (`validate_config_schema` only
runs the full schema then); when the other base-schema rules pass, the
features violation itself appears in the error list. -/
theorem C4_bad_features_with_database (d : JObj) (fv : JValue) (res : Bool × List Str)
    (hf : alookup ("features".data) d = some fv)
    (hbad : featuresBad fv = true)
    (hdb : (alookup ("database".data) d).isSome = true)
    (hres : ConfigValidator.validate d = Except.ok res) :
    res.1 = false ∧ res.2 ≠ [] ∧
      (version_rule_error d = none → database_rule_error d = none →
        ("Validation error: ".data ++ features_section_msg) ∈ res.2) := by
  obtain ⟨hg, hb⟩ := validate_ok_inv d res hres
  obtain ⟨extra, he⟩ := gve_ok_extends d res.2 hg
  obtain ⟨e, hvcs⟩ := vcs_error_of_bad_features d fv hf hbad hdb
  have hsl : schema_error_list d = [e] := by unfold schema_error_list; rw [hvcs]
  rw [hsl] at he
  refine ⟨by rw [hb, he]; rfl, by rw [he]; simp, ?_⟩
  intro h1 h2
  have hmsg := vcs_features_message d fv hf hbad hdb h1 h2
  rw [hmsg] at hvcs
  cases hvcs
  rw [he]
  exact List.mem_append_left _ (List.mem_singleton_self _)

/-- Claim C4, counterexample to the claim as stated: `features` is present
and bound to a non-object, yet without a `database` field the document
validates cleanly. -/
theorem C4_counterexample :
    ConfigValidator.validate
      [("version".data, JValue.int 1), ("features".data, JValue.int 5)] =
      Except.ok (true, []) := rfl

/-- Claim C4, witness: the amended theorem at a document carrying a valid
`database` section and a non-object `features` value. -/
theorem C4_bad_features_with_database_witness :
    ((false, [("Validation error: ".data ++ features_section_msg)]) : Bool × List Str).1
        = false ∧
      ((false, [("Validation error: ".data ++ features_section_msg)]) : Bool × List Str).2
        ≠ [] ∧
      ("Validation error: ".data ++ features_section_msg) ∈
        [("Validation error: ".data ++ features_section_msg)] := by
  have h := C4_bad_features_with_database
    [("version".data, JValue.int 1),
     ("database".data,
       JValue.obj [("host".data, JValue.str ("h".data)), ("port".data, JValue.int 80)]),
     ("features".data, JValue.int 5)]
    (JValue.int 5) (false, [("Validation error: ".data ++ features_section_msg)])
    rfl rfl rfl rfl
  exact ⟨h.1, h.2.1, h.2.2 rfl rfl⟩

/-- The code's blank-input guard fires exactly on whitespace-only (or empty)
input. -/
theorem blank_guard_iff (content : Str) :
    (content.isEmpty || (pyStrip content).isEmpty) = true ↔
      ∀ c ∈ content, pyIsSpace c = true := by
  constructor
  · intro h c hc
    rw [Bool.or_eq_true] at h
    cases h with
    | inl h0 => rw [List.isEmpty_iff] at h0; subst h0; cases hc
    | inr h0 =>
        rw [List.isEmpty_iff] at h0
        unfold pyStrip at h0
        rw [List.reverse_eq_nil_iff] at h0
        have h2 : ∀ x ∈ content.dropWhile pyIsSpace, pyIsSpace x = true := by
          intro x hx
          exact (List.dropWhile_eq_nil_iff.mp h0) x (List.mem_reverse.mpr hx)
        have h3 := List.takeWhile_append_dropWhile pyIsSpace content
        rw [← h3] at hc
        cases List.mem_append.mp hc with
        | inl hm => exact List.mem_takeWhile_imp hm
        | inr hm => exact h2 c hm
  · intro h
    have h1 : content.dropWhile pyIsSpace = [] := List.dropWhile_eq_nil_iff.mpr h
    unfold pyStrip
    rw [h1]
    simp

/-- Claim C8: the parse step fails with the empty-input error on blank input
(whatever the loader would have said), and with the shape error on a loaded
non-object top-level value; neither failure returns a parsed document. -/
theorem C8_parse_yaml_failures :
    (∀ (content : Str) (loaded : YamlLoad),
      (∀ c ∈ content, pyIsSpace c = true) →
      YAMLValidator.parse_yaml content loaded =
        (false, none, some ("Empty YAML content".data))) ∧
    (∀ (content : Str) (loaded : YamlLoad) (v : JValue),
      ¬(∀ c ∈ content, pyIsSpace c = true) →
      loaded = YamlLoad.val v → v.isObj = false →
      YAMLValidator.parse_yaml content loaded =
        (false, none, some ("YAML must represent a dictionary/object".data))) := by
  constructor
  · intro content loaded h
    unfold YAMLValidator.parse_yaml
    rw [if_pos ((blank_guard_iff content).mpr h)]
  · intro content loaded v h hl hv
    have hg : (content.isEmpty || (pyStrip content).isEmpty) = false := by
      cases hgb : (content.isEmpty || (pyStrip content).isEmpty) with
      | false => rfl
      | true => exact absurd ((blank_guard_iff content).mp hgb) h
    unfold YAMLValidator.parse_yaml
    rw [if_neg (by simp [hg]), hl]
    dsimp only
    rw [if_neg (by simp [hv])]

/-- Claim C8, witness: a whitespace-only input and a non-blank input whose
loaded value is a top-level list. -/
theorem C8_parse_yaml_failures_witness :
    YAMLValidator.parse_yaml [' '] (YamlLoad.val JValue.null) =
        (false, none, some ("Empty YAML content".data)) ∧
      YAMLValidator.parse_yaml ("x".data) (YamlLoad.val (JValue.arr [])) =
        (false, none, some ("YAML must represent a dictionary/object".data)) :=
  ⟨C8_parse_yaml_failures.1 [' '] _ (by decide),
   C8_parse_yaml_failures.2 ("x".data) _ (JValue.arr []) (by decide) rfl rfl⟩

/-! ## Claim theorems: the store and the history handler -/

/-- Claim C10: for a service with no stored records the handler does not pass
the store's empty sequence on as data — it answers 404 with the
no-history-found message and no data. -/
theorem C10_empty_history_404 (st : DBState) (service : Str)
    (h : rows_for st service = []) :
    DatabaseConnection.get_configuration_history st service = [] ∧
      ConfigurationHandler.get_configuration_history st service =
        { data := none, error := some (no_history_msg service), status_code := 404 } := by
  have hh : DatabaseConnection.get_configuration_history st service = [] := by
    unfold DatabaseConnection.get_configuration_history
    rw [show sort_desc (rows_for st service) = [] from by rw [h]; rfl]
    rfl
  refine ⟨hh, ?_⟩
  unfold ConfigurationHandler.get_configuration_history
  rw [hh]
  rfl

/-- Claim C10, witness: the empty store. -/
theorem C10_empty_history_404_witness :
    DatabaseConnection.get_configuration_history (DBState.mk [] 0 0) ("auth".data) = [] ∧
      ConfigurationHandler.get_configuration_history (DBState.mk [] 0 0) ("auth".data) =
        { data := none, error := some (no_history_msg ("auth".data)), status_code := 404 } :=
  C10_empty_history_404 (DBState.mk [] 0 0) ("auth".data) rfl

/-- Looking up a key just appended at the end of a dictionary it was absent
from. -/
theorem alookup_append_right {α : Type} (k : Str) (d : List (Str × α)) (v : α)
    (h : alookup k d = none) : alookup k (d ++ [(k, v)]) = some v := by
  induction d with
  | nil => simp [alookup]
  | cons kv t ih =>
      cases kv with
      | mk k0 v0 =>
          by_cases hk : (k0 == k) = true
          · rw [show alookup k ((k0, v0) :: t) = some v0 from by simp [alookup, hk]] at h
            cases h
          · have ht : alookup k t = none := by
              rw [show alookup k ((k0, v0) :: t) = alookup k t from by simp [alookup, hk]] at h
              exact h
            show alookup k ((k0, v0) :: (t ++ [(k, v)])) = some v
            simp [alookup, hk, ih ht]

/-- Looking up a key whose binding was just replaced in place. -/
theorem alookup_map_set {α : Type} (k : Str) (v : α) (d : List (Str × α))
    (h : (alookup k d).isSome = true) :
    alookup k (d.map (fun kv => if kv.1 == k then (k, v) else kv)) = some v := by
  induction d with
  | nil => simp [alookup] at h
  | cons kv t ih =>
      cases kv with
      | mk k0 v0 =>
          rw [List.map_cons]
          dsimp only
          by_cases hk : (k0 == k) = true
          · rw [if_pos hk]
            show alookup k ((k, v) :: _) = some v
            simp [alookup]
          · rw [if_neg hk]
            show alookup k ((k0, v0) :: _) = some v
            rw [show alookup k ((k0, v0) ::
                  List.map (fun kv => if kv.1 == k then (k, v) else kv) t) =
                alookup k (List.map (fun kv => if kv.1 == k then (k, v) else kv) t) from by
              simp [alookup, hk]]
            apply ih
            rw [show alookup k ((k0, v0) :: t) = alookup k t from by simp [alookup, hk]] at h
            exact h

/-- `d[k] = v` makes `d.get(k)` return `v`. -/
theorem alookup_aset {α : Type} (k : Str) (v : α) (d : List (Str × α)) :
    alookup k (aset k v d) = some v := by
  unfold aset
  by_cases h : (alookup k d).isSome = true
  · rw [if_pos h]; exact alookup_map_set k v d h
  · rw [if_neg h]
    apply alookup_append_right
    cases ho : alookup k d with
    | none => rfl
    | some w => rw [ho] at h; exact absurd rfl h

/-- Claim C3: `save` with no `version` in the payload assigns
`max(version) + 1` for the service (1 on an empty history), writes it into
the persisted payload, and returns it; `save` with an integer `version`
trusts it as-is — no duplicate-version check, whatever rows the state already
holds — and in both cases the returned record's version equals the payload's
`version` field. -/
theorem C3_save_version_assignment :
    (∀ (st : DBState) (service : Str) (payload : JObj),
      alookup ("version".data) payload = none →
      ∃ row st2,
        DatabaseConnection.save_configuration st service payload = Except.ok (row, st2) ∧
        row.version = max_version st service + 1 ∧
        alookup ("version".data) row.payload = some (JValue.int row.version) ∧
        st2.rows = st.rows ++ [row] ∧
        (rows_for st service = [] → row.version = 1)) ∧
    (∀ (st : DBState) (service : Str) (payload : JObj) (v : Int),
      alookup ("version".data) payload = some (JValue.int v) →
      ∃ row st2,
        DatabaseConnection.save_configuration st service payload = Except.ok (row, st2) ∧
        row.version = v ∧ row.payload = payload ∧
        alookup ("version".data) row.payload = some (JValue.int row.version) ∧
        st2.rows = st.rows ++ [row]) := by
  constructor
  · intro st service payload hv
    refine ⟨?w1, ?w2, ?h1, ?h2, ?h3, ?h4, ?h5⟩
    case h1 =>
      unfold DatabaseConnection.save_configuration
      rw [hv]
      exact rfl
    case h2 => rfl
    case h3 => exact alookup_aset _ _ _
    case h4 => rfl
    case h5 =>
      intro hr
      show max_version st service + 1 = 1
      unfold max_version
      rw [hr]
      rfl
  · intro st service payload v hv
    refine ⟨?u1, ?u2, ?g1, ?g2, ?g3, ?g4, ?g5⟩
    case g1 =>
      unfold DatabaseConnection.save_configuration
      rw [hv]
      exact rfl
    case g2 => rfl
    case g3 => rfl
    case g4 => exact hv
    case g5 => rfl

/-- Claim C3, witness: an auto-assigned save on the empty store and an
explicit-version save. -/
theorem C3_save_version_assignment_witness :
    (∃ row st2,
      DatabaseConnection.save_configuration (DBState.mk [] 0 0) ("auth".data) [] =
          Except.ok (row, st2) ∧
        row.version = max_version (DBState.mk [] 0 0) ("auth".data) + 1 ∧
        alookup ("version".data) row.payload = some (JValue.int row.version) ∧
        st2.rows = (DBState.mk [] 0 0).rows ++ [row] ∧
        (rows_for (DBState.mk [] 0 0) ("auth".data) = [] → row.version = 1)) ∧
    (∃ row st2,
      DatabaseConnection.save_configuration (DBState.mk [] 0 0) ("auth".data)
          [("version".data, JValue.int 5)] = Except.ok (row, st2) ∧
        row.version = 5 ∧ row.payload = [("version".data, JValue.int 5)] ∧
        alookup ("version".data) row.payload = some (JValue.int row.version) ∧
        st2.rows = (DBState.mk [] 0 0).rows ++ [row]) :=
  ⟨C3_save_version_assignment.1 (DBState.mk [] 0 0) ("auth".data) [] rfl,
   C3_save_version_assignment.2 (DBState.mk [] 0 0) ("auth".data)
     [("version".data, JValue.int 5)] 5 rfl⟩

/-- Membership through `insert_desc`. -/
theorem insert_desc_perm (r : ConfigurationModel) (l : List ConfigurationModel) :
    (insert_desc r l).Perm (r :: l) := by
  induction l with
  | nil => exact List.Perm.refl _
  | cons x t ih =>
      unfold insert_desc
      split
      · exact ((ih.cons x).trans (List.Perm.swap r x t))
      · exact List.Perm.refl _

/-- `sort_desc` permutes its input. -/
theorem sort_desc_perm (l : List ConfigurationModel) : (sort_desc l).Perm l := by
  induction l with
  | nil => exact List.Perm.refl _
  | cons r t ih =>
      unfold sort_desc
      exact (insert_desc_perm r (sort_desc t)).trans (ih.cons r)

/-- `insert_desc` keeps the version order. -/
theorem insert_desc_pairwise (r : ConfigurationModel) (l : List ConfigurationModel)
    (h : l.Pairwise (fun a b => b.version ≤ a.version)) :
    (insert_desc r l).Pairwise (fun a b => b.version ≤ a.version) := by
  induction l with
  | nil => simp [insert_desc]
  | cons x t ih =>
      rw [List.pairwise_cons] at h
      unfold insert_desc
      split
      · rename_i hle
        rw [List.pairwise_cons]
        constructor
        · intro b hb
          rcases List.mem_cons.mp (((insert_desc_perm r t).mem_iff).mp hb) with rfl | hb0
          · assumption
          · exact h.1 b hb0
        · exact ih h.2
      · rename_i hgt
        rw [List.pairwise_cons]
        constructor
        · intro b hb
          rcases List.mem_cons.mp hb with rfl | hb0
          · omega
          · have := h.1 b hb0; omega
        · exact List.pairwise_cons.mpr h

/-- `sort_desc` sorts by non-increasing version. -/
theorem sort_desc_pairwise (l : List ConfigurationModel) :
    (sort_desc l).Pairwise (fun a b => b.version ≤ a.version) := by
  induction l with
  | nil => simp [sort_desc]
  | cons r t ih => exact insert_desc_pairwise r (sort_desc t) ih

/-- The head of the sorted list bounds every element's version. -/
theorem sort_desc_head_max (l : List ConfigurationModel) (m : ConfigurationModel)
    (t : List ConfigurationModel) (h : sort_desc l = m :: t) :
    ∀ a ∈ l, a.version ≤ m.version := by
  intro a ha
  have hmem : a ∈ sort_desc l := ((sort_desc_perm l).mem_iff).mpr ha
  rw [h] at hmem
  rcases List.mem_cons.mp hmem with rfl | hat
  · exact le_refl _
  · have hp := sort_desc_pairwise l
    rw [h, List.pairwise_cons] at hp
    exact hp.1 a hat

/-- Claim C6: `get` with a version returns the exact `(service, version)`
match, or absence — not an error — when none exists; `get` without a version
returns a stored record of the service whose version bounds every other
record of that service; absence there means the service has no records. -/
theorem C6_get_configuration_spec (st : DBState) (service : Str) :
    (∀ v : Int,
      (DatabaseConnection.get_configuration st service (some v) = none ↔
        ∀ r ∈ st.rows, ¬(r.service = service ∧ r.version = v)) ∧
      (∀ m, DatabaseConnection.get_configuration st service (some v) = some m →
        m.service = service ∧ m.version = v ∧ m ∈ st.rows)) ∧
    (∀ m, DatabaseConnection.get_configuration st service none = some m →
      m.service = service ∧ m ∈ st.rows ∧
        ∀ r ∈ st.rows, r.service = service → r.version ≤ m.version) ∧
    (DatabaseConnection.get_configuration st service none = none ↔
      ∀ r ∈ st.rows, r.service ≠ service) := by
  refine ⟨?_, ?_, ?_⟩
  · intro v
    constructor
    · unfold DatabaseConnection.get_configuration
      rw [List.find?_eq_none]
      constructor
      · intro h r hr ⟨hs, hv⟩
        have hrf : r ∈ rows_for st service := by
          unfold rows_for
          rw [List.mem_filter]
          exact ⟨hr, by rw [hs]; exact beq_self_eq_true service⟩
        have := h r hrf
        rw [hv] at this
        exact this (beq_self_eq_true v)
      · intro h x hx hbeq
        have hm := List.mem_filter.mp hx
        exact h x hm.1 ⟨eq_of_beq hm.2, eq_of_beq hbeq⟩
    · intro m hm
      unfold DatabaseConnection.get_configuration at hm
      have h1 := List.find?_some hm
      have h2 := List.mem_of_find?_eq_some hm
      have h3 := List.mem_filter.mp h2
      exact ⟨eq_of_beq h3.2, eq_of_beq h1, h3.1⟩
  · intro m hm
    unfold DatabaseConnection.get_configuration at hm
    cases hs : sort_desc (rows_for st service) with
    | nil => rw [hs] at hm; cases hm
    | cons m0 t0 =>
        rw [hs] at hm
        cases hm
        have hmem : m ∈ rows_for st service :=
          ((sort_desc_perm _).mem_iff).mp (by rw [hs]; exact List.mem_cons_self _ _)
        have h3 := List.mem_filter.mp hmem
        refine ⟨eq_of_beq h3.2, h3.1, ?_⟩
        intro r hr hrs
        apply sort_desc_head_max (rows_for st service) m t0 hs
        unfold rows_for
        rw [List.mem_filter]
        exact ⟨hr, by rw [hrs]; exact beq_self_eq_true service⟩
  · unfold DatabaseConnection.get_configuration
    constructor
    · intro h r hr hrs
      cases hs : sort_desc (rows_for st service) with
      | nil =>
          have hnil : rows_for st service = [] := by
            have := (sort_desc_perm (rows_for st service)).length_eq
            rw [hs] at this
            cases hl : rows_for st service with
            | nil => rfl
            | cons a b => rw [hl] at this; cases this
          have : r ∈ rows_for st service := by
            unfold rows_for
            rw [List.mem_filter]
            exact ⟨hr, by rw [hrs]; exact beq_self_eq_true service⟩
          rw [hnil] at this
          cases this
      | cons m0 t0 => rw [hs] at h; cases h
    · intro h
      cases hs : sort_desc (rows_for st service) with
      | nil => rfl
      | cons m0 t0 =>
          have hmem : m0 ∈ rows_for st service :=
            ((sort_desc_perm _).mem_iff).mp (by rw [hs]; exact List.mem_cons_self _ _)
          have h3 := List.mem_filter.mp hmem
          exact absurd (eq_of_beq h3.2) (h m0 h3.1)

/-- Claim C6, witness: exact-version hit on a one-row store and a miss for an
unknown service. -/
theorem C6_get_configuration_spec_witness :
    ((ConfigurationModel.mk 0 ("a".data) 3 [] 0).service = "a".data ∧
      (ConfigurationModel.mk 0 ("a".data) 3 [] 0).version = 3 ∧
      ConfigurationModel.mk 0 ("a".data) 3 [] 0 ∈
        (DBState.mk [ConfigurationModel.mk 0 ("a".data) 3 [] 0] 1 1).rows) ∧
    DatabaseConnection.get_configuration
        (DBState.mk [ConfigurationModel.mk 0 ("a".data) 3 [] 0] 1 1) ("b".data) none = none :=
  ⟨((C6_get_configuration_spec
        (DBState.mk [ConfigurationModel.mk 0 ("a".data) 3 [] 0] 1 1) ("a".data)).1 3).2
      (ConfigurationModel.mk 0 ("a".data) 3 [] 0) rfl,
   ((C6_get_configuration_spec
        (DBState.mk [ConfigurationModel.mk 0 ("a".data) 3 [] 0] 1 1) ("b".data)).2.2).mpr
      (by decide)⟩

/-- Claim C7, counterexample to the claim as stated: two saves with the same
explicit version (no duplicate check exists) leave the store in a state whose
history for the service lists the version twice — descending, but not
*strictly* descending. -/
theorem C7_counterexample :
    ∃ row1 st1 row2 st2,
      DatabaseConnection.save_configuration (DBState.mk [] 0 0) ("svc".data)
          [("version".data, JValue.int 1)] = Except.ok (row1, st1) ∧
      DatabaseConnection.save_configuration st1 ("svc".data)
          [("version".data, JValue.int 1)] = Except.ok (row2, st2) ∧
      (DatabaseConnection.get_configuration_history st2 ("svc".data)).map
          (fun it => it.version) = [1, 1] ∧
      strictly_desc [1, 1] = false := by
  refine ⟨_, _, _, _, rfl, rfl, ?_, rfl⟩
  rfl

/-- Claim C7 (amended): the store-level history is ordered by non-increasing
version — strictly descending whenever the service's stored versions are
pairwise distinct (always true under auto-assignment, but duplicates are
possible through explicit versions) — and a service with no stored records
yields the empty sequence rather than a failure. -/
theorem C7_history_ordering (st : DBState) (service : Str) :
    (DatabaseConnection.get_configuration_history st service).Pairwise
      (fun a b => b.version ≤ a.version) ∧
    (rows_for st service = [] →
      DatabaseConnection.get_configuration_history st service = []) ∧
    (((rows_for st service).map (fun r => r.version)).Nodup →
      (DatabaseConnection.get_configuration_history st service).Pairwise
        (fun a b => b.version < a.version)) := by
  refine ⟨?_, ?_, ?_⟩
  · unfold DatabaseConnection.get_configuration_history
    exact List.Pairwise.map _ (fun a b h => h) (sort_desc_pairwise (rows_for st service))
  · intro h
    unfold DatabaseConnection.get_configuration_history
    rw [show sort_desc (rows_for st service) = [] from by rw [h]; rfl]
    rfl
  · intro hnd
    have hne : (rows_for st service).Pairwise (fun a b => a.version ≠ b.version) :=
      List.pairwise_map.mp hnd
    have hne2 : (sort_desc (rows_for st service)).Pairwise
        (fun a b => a.version ≠ b.version) :=
      ((sort_desc_perm (rows_for st service)).pairwise_iff
        (fun h => h.symm)).mpr hne
    have hboth := (sort_desc_pairwise (rows_for st service)).and hne2
    unfold DatabaseConnection.get_configuration_history
    refine List.Pairwise.map _ ?_ hboth
    intro a b hab
    exact lt_of_le_of_ne hab.1 (fun he => hab.2 he.symm)

/-- Claim C7, witness: a two-row store with distinct versions, and the empty
store. -/
theorem C7_history_ordering_witness :
    (DatabaseConnection.get_configuration_history
        (DBState.mk [ConfigurationModel.mk 0 ("a".data) 2 [] 0,
                     ConfigurationModel.mk 1 ("a".data) 1 [] 1] 2 2) ("a".data)).Pairwise
      (fun a b => b.version ≤ a.version) ∧
    DatabaseConnection.get_configuration_history (DBState.mk [] 0 0) ("a".data) = [] ∧
    (DatabaseConnection.get_configuration_history
        (DBState.mk [ConfigurationModel.mk 0 ("a".data) 2 [] 0,
                     ConfigurationModel.mk 1 ("a".data) 1 [] 1] 2 2) ("a".data)).Pairwise
      (fun a b => b.version < a.version) :=
  ⟨(C7_history_ordering
      (DBState.mk [ConfigurationModel.mk 0 ("a".data) 2 [] 0,
                   ConfigurationModel.mk 1 ("a".data) 1 [] 1] 2 2) ("a".data)).1,
   (C7_history_ordering (DBState.mk [] 0 0) ("a".data)).2.1 rfl,
   (C7_history_ordering
      (DBState.mk [ConfigurationModel.mk 0 ("a".data) 2 [] 0,
                   ConfigurationModel.mk 1 ("a".data) 1 [] 1] 2 2) ("a".data)).2.2
     (by decide)⟩

/-! ## Lemmas about dictionary merge (`process_template_request`) -/

/-- `optOr` with nothing on the right. -/
theorem optOr_none_right {α : Type} (a : Option α) : optOr a none = a := by
  cases a <;> rfl

/-- Lookup across an append: the left binding wins. -/
theorem alookup_append {α : Type} (k : Str) (a b : List (Str × α)) :
    alookup k (a ++ b) = optOr (alookup k a) (alookup k b) := by
  induction a with
  | nil => rfl
  | cons kv t ih =>
      cases kv with
      | mk k0 v0 =>
          by_cases hk : (k0 == k) = true
          · simp [alookup, hk, optOr]
          · simp [alookup, hk, ih]

/-- Lookup hitting the head binding. -/
theorem alookup_cons_hit {α : Type} (k k0 : Str) (v0 : α) (t : List (Str × α))
    (hk : (k0 == k) = true) : alookup k ((k0, v0) :: t) = some v0 := by
  simp only [alookup]
  rw [if_pos hk]

/-- Lookup passing over the head binding. -/
theorem alookup_cons_miss {α : Type} (k k0 : Str) (v0 : α) (t : List (Str × α))
    (hk : (k0 == k) = false) : alookup k ((k0, v0) :: t) = alookup k t := by
  simp only [alookup]
  rw [if_neg (by rw [hk]; exact Bool.false_ne_true)]

/-- Replacing bindings of a different key leaves a lookup unchanged. -/
theorem alookup_map_other {α : Type} (k k0 : Str) (v : α) (d : List (Str × α))
    (hk : (k0 == k) = false) :
    alookup k (d.map (fun kv => if kv.1 == k0 then (k0, v) else kv)) = alookup k d := by
  induction d with
  | nil => rfl
  | cons kv t ih =>
      cases kv with
      | mk k1 v1 =>
          rw [List.map_cons]
          dsimp only
          by_cases hk1 : (k1 == k0) = true
          · rw [if_pos hk1]
            show alookup k ((k0, v) :: _) = _
            have h1k : (k1 == k) = false := by
              cases hq0 : (k1 == k) with
              | false => rfl
              | true =>
                  have he : k0 = k := (eq_of_beq hk1).symm.trans (eq_of_beq hq0)
                  rw [he, beq_self_eq_true] at hk
                  simp at hk
            rw [alookup_cons_miss k k0 v _ hk, ih, alookup_cons_miss k k1 v1 t h1k]
          · rw [if_neg hk1]
            show alookup k ((k1, v1) :: _) = _
            by_cases hq : (k1 == k) = true
            · rw [alookup_cons_hit k k1 v1 _ hq, alookup_cons_hit k k1 v1 t hq]
            · rw [alookup_cons_miss k k1 v1 _ (by rw [Bool.not_eq_true] at hq; exact hq),
                  alookup_cons_miss k k1 v1 t (by rw [Bool.not_eq_true] at hq; exact hq), ih]

/-- Replacing the bindings of the looked-up key, when one exists. -/
theorem alookup_map_same {α : Type} (k k0 : Str) (v : α) (d : List (Str × α))
    (h : (alookup k0 d).isSome = true) (hk : (k0 == k) = true) :
    alookup k (d.map (fun kv => if kv.1 == k0 then (k0, v) else kv)) = some v := by
  induction d with
  | nil => simp [alookup] at h
  | cons kv t ih =>
      cases kv with
      | mk k1 v1 =>
          rw [List.map_cons]
          dsimp only
          by_cases hk1 : (k1 == k0) = true
          · rw [if_pos hk1]
            show alookup k ((k0, v) :: _) = some v
            exact alookup_cons_hit k k0 v _ hk
          · rw [if_neg hk1]
            show alookup k ((k1, v1) :: _) = some v
            have hq : (k1 == k) = false := by
              cases hq0 : (k1 == k) with
              | false => rfl
              | true =>
                  have h1k : k1 = k := eq_of_beq hq0
                  have hkk : k0 = k := eq_of_beq hk
                  exact absurd (by rw [h1k, hkk]; exact beq_self_eq_true k) hk1
            have ht : (alookup k0 t).isSome = true := by
              rw [alookup_cons_miss k0 k1 v1 t (by
                cases hx : (k1 == k0) with
                | false => rfl
                | true => exact absurd hx hk1)] at h
              exact h
            rw [alookup_cons_miss k k1 _ _ hq]
            exact ih ht

/-- The effect of `d[k0] = v` on an arbitrary lookup. -/
theorem alookup_aset_general {α : Type} (k k0 : Str) (v : α) (d : List (Str × α)) :
    alookup k (aset k0 v d) = if (k0 == k) = true then some v else alookup k d := by
  unfold aset
  by_cases h : (alookup k0 d).isSome = true
  · rw [if_pos h]
    by_cases hk : (k0 == k) = true
    · rw [if_pos hk]
      exact alookup_map_same k k0 v d h hk
    · rw [if_neg hk]
      exact alookup_map_other k k0 v d (by rw [Bool.not_eq_true] at hk; exact hk)
  · rw [if_neg h]
    rw [alookup_append]
    by_cases hk : (k0 == k) = true
    · rw [if_pos hk]
      have hd : alookup k d = none := by
        rw [← eq_of_beq hk] at *
        cases ho : alookup k0 d with
        | none => rfl
        | some w => rw [ho] at h; exact absurd rfl h
      rw [hd]
      show optOr none (if (k0 == k) = true then some v else none) = some v
      rw [if_pos hk]
      rfl
    · rw [if_neg hk]
      rw [show alookup k [(k0, v)] = none from by
        simp only [alookup]
        rw [if_neg hk]]
      exact optOr_none_right _

/-- Lookup through dictionary building by successive assignment: the last
binding in the pair list wins over earlier ones, then over the accumulator. -/
theorem foldl_aset_alookup {α : Type} (ps : List (Str × α)) :
    ∀ (acc : List (Str × α)) (k : Str),
      alookup k (ps.foldl (fun d kv => aset kv.1 kv.2 d) acc) =
        optOr (alookup k ps.reverse) (alookup k acc) := by
  induction ps with
  | nil => intro acc k; rfl
  | cons kv t ih =>
      intro acc k
      cases kv with
      | mk k0 v0 =>
          rw [List.foldl_cons, ih, List.reverse_cons, alookup_append]
          rw [alookup_aset_general]
          cases hX : alookup k t.reverse with
          | some w => rfl
          | none =>
              show (if (k0 == k) = true then some v0 else alookup k acc) =
                optOr (alookup k [(k0, v0)]) (alookup k acc)
              by_cases hk : (k0 == k) = true
              · rw [if_pos hk]
                rw [show alookup k [(k0, v0)] = some v0 from by
                  simp only [alookup]; rw [if_pos hk]]
                rfl
              · rw [if_neg hk]
                rw [show alookup k [(k0, v0)] = none from by
                  simp only [alookup]; rw [if_neg hk]]
                rfl

/-- Lookup in a built dictionary: the last binding of the pair list. -/
theorem alookup_dict_of_pairs {α : Type} (ps : List (Str × α)) (k : Str) :
    alookup k (dict_of_pairs ps) = alookup k ps.reverse := by
  unfold dict_of_pairs
  rw [foldl_aset_alookup]
  exact optOr_none_right _

/-- Without duplicate keys, reversal does not change lookups. -/
theorem alookup_reverse_of_nodup {α : Type} (ps : List (Str × α)) (k : Str)
    (h : nodupKeysB ps = true) : alookup k ps.reverse = alookup k ps := by
  induction ps with
  | nil => rfl
  | cons kv t ih =>
      cases kv with
      | mk k0 v0 =>
          unfold nodupKeysB at h
          rw [Bool.and_eq_true] at h
          have hfresh : alookup k0 t = none := by
            rcases h.1 with hh
            rw [Bool.not_eq_true'] at hh
            cases ho : alookup k0 t with
            | none => rfl
            | some w => rw [ho] at hh; cases hh
          rw [List.reverse_cons, alookup_append, ih h.2]
          show optOr (alookup k t) (alookup k [(k0, v0)]) =
            alookup k ((k0, v0) :: t)
          by_cases hk : (k0 == k) = true
          · have hkt : alookup k t = none := by rw [← eq_of_beq hk]; exact hfresh
            rw [hkt]
            rw [show alookup k [(k0, v0)] = some v0 from by
              simp only [alookup]; rw [if_pos hk]]
            rw [show alookup k ((k0, v0) :: t) = some v0 from by
              simp only [alookup]; rw [if_pos hk]]
            rfl
          · rw [show alookup k [(k0, v0)] = none from by
              simp only [alookup]; rw [if_neg hk]]
            rw [optOr_none_right]
            simp only [alookup]
            rw [if_neg hk]

/-- When the caller does not supply a key, the default context falls back to
the fixed placeholder values. -/
theorem default_context_lookup_of_absent (p : List (Str × Str)) (k : Str)
    (hp : alookup k p = none) :
    alookup k (default_context p) = alookup k fixed_defaults := by
  unfold default_context fixed_defaults
  by_cases h1 : (("user".data : Str) == k) = true
  · rw [alookup_cons_hit _ _ _ _ h1, alookup_cons_hit _ _ _ _ h1]
    rw [show alookup ("user".data) p = none from by rw [eq_of_beq h1]; exact hp]
    rfl
  · have h1f : (("user".data : Str) == k) = false := by
      cases hx : (("user".data : Str) == k) with
      | false => rfl
      | true => exact absurd hx h1
    rw [alookup_cons_miss _ _ _ _ h1f, alookup_cons_miss _ _ _ _ h1f]
    by_cases h2 : (("env".data : Str) == k) = true
    · rw [alookup_cons_hit _ _ _ _ h2, alookup_cons_hit _ _ _ _ h2]
      rw [show alookup ("env".data) p = none from by rw [eq_of_beq h2]; exact hp]
      rfl
    · have h2f : (("env".data : Str) == k) = false := by
        cases hx : (("env".data : Str) == k) with
        | false => rfl
        | true => exact absurd hx h2
      rw [alookup_cons_miss _ _ _ _ h2f, alookup_cons_miss _ _ _ _ h2f]
      by_cases h3 : (("timestamp".data : Str) == k) = true
      · rw [alookup_cons_hit _ _ _ _ h3, alookup_cons_hit _ _ _ _ h3]
        rw [show alookup ("timestamp".data) p = none from by rw [eq_of_beq h3]; exact hp]
        rfl
      · have h3f : (("timestamp".data : Str) == k) = false := by
          cases hx : (("timestamp".data : Str) == k) with
          | false => rfl
          | true => exact absurd hx h3
        rw [alookup_cons_miss _ _ _ _ h3f, alookup_cons_miss _ _ _ _ h3f]

/-! ## Claim theorems: the template processor -/

/-- Claim C9: the rendering context is the fixed default set
`user`/`env`/`timestamp` (with their documented placeholders) merged with the
caller's parameters, the caller winning key-by-key; and Scenario D renders
`Hello ... user ...!` with `user = alice` to `Hello alice!`. -/
theorem C9_context_merge_and_scenario_D :
    (∀ (template_params : List (Str × Str)) (k : Str),
      nodupKeysB template_params = true →
      alookup k (merged_context template_params) =
        optOr (alookup k template_params) (alookup k fixed_defaults)) ∧
    ConfigTemplateProcessor.process_template_request
        (JValue.obj [("welcome_message".data,
          JValue.str ("Hello ".data ++ [obrace, obrace] ++ " user ".data ++
            [cbrace, cbrace] ++ "!".data))])
        [("user".data, "alice".data)] =
      Except.ok (JValue.obj [("welcome_message".data,
        JValue.str ("Hello alice!".data))]) := by
  constructor
  · intro p k hnd
    unfold merged_context
    rw [alookup_dict_of_pairs, List.reverse_append, alookup_append]
    rw [alookup_reverse_of_nodup p k hnd]
    rw [alookup_reverse_of_nodup (default_context p) k (by rfl)]
    cases hp : alookup k p with
    | some w => rfl
    | none =>
        show alookup k (default_context p) = alookup k fixed_defaults
        exact default_context_lookup_of_absent p k hp
  · rfl

/-- Claim C9, witness: the merge characterization at the Scenario-D call. -/
theorem C9_context_merge_and_scenario_D_witness :
    alookup ("user".data) (merged_context [("user".data, "alice".data)]) =
      optOr (alookup ("user".data) [("user".data, "alice".data)])
        (alookup ("user".data) fixed_defaults) :=
  C9_context_merge_and_scenario_D.1 [("user".data, "alice".data)] ("user".data) rfl

/-! ## Lemmas towards the JSON round-trip (Claim C5) -/

/-- Facts about one digit character. -/
theorem digitChar_spec (k : Nat) (h : k < 10) :
    isDigitCh (digitChar k) = true ∧ (digitChar k).toNat - '0'.toNat = k ∧
      ((digitChar k) == '0') = decide (k = 0) := by
  have hall : ∀ i : Fin 10, isDigitCh (digitChar i.val) = true ∧
      (digitChar i.val).toNat - '0'.toNat = i.val ∧
      ((digitChar i.val) == '0') = decide (i.val = 0) := by decide
  exact hall ⟨k, h⟩

/-- The accumulator of `natDigitsGo` just rides along. -/
theorem natDigitsGo_append (f : Nat) : ∀ (n : Nat) (acc : List Char),
    natDigitsGo f n acc = natDigitsGo f n [] ++ acc := by
  induction f with
  | zero => intro n acc; rfl
  | succ f ih =>
      intro n acc
      show natDigitsGo (f + 1) n acc = natDigitsGo (f + 1) n [] ++ acc
      unfold natDigitsGo
      by_cases h : n < 10
      · rw [if_pos h, if_pos h]; rfl
      · rw [if_neg h, if_neg h, ih (n / 10) (digitChar (n % 10) :: acc),
            ih (n / 10) [digitChar (n % 10)]]
        rw [List.append_assoc]
        rfl

/-- The fuel of `natDigitsGo` is irrelevant once it covers `n`. -/
theorem natDigitsGo_fuel (n : Nat) : ∀ (f g : Nat), n ≤ f → n ≤ g →
    natDigitsGo f n [] = natDigitsGo g n [] := by
  induction n using Nat.strong_induction_on with
  | _ n ih =>
      intro f g hf hg
      match f, g with
      | 0, 0 => rfl
      | 0, g + 1 =>
          have hn : n = 0 := by omega
          subst hn
          show _ = natDigitsGo (g + 1) 0 []
          unfold natDigitsGo
          rw [if_pos (by omega)]
      | f + 1, 0 =>
          have hn : n = 0 := by omega
          subst hn
          show natDigitsGo (f + 1) 0 [] = _
          unfold natDigitsGo
          rw [if_pos (by omega)]
      | f + 1, g + 1 =>
          show natDigitsGo (f + 1) n [] = natDigitsGo (g + 1) n []
          unfold natDigitsGo
          by_cases h : n < 10
          · rw [if_pos h, if_pos h]
          · rw [if_neg h, if_neg h]
            rw [natDigitsGo_append f, natDigitsGo_append g]
            rw [ih (n / 10) (by omega) f g (by omega) (by omega)]

/-- The two reduction rules of `natDigitsGo`, as rewriting equations. -/
theorem natDigitsGo_zero (n : Nat) (acc : List Char) :
    natDigitsGo 0 n acc = digitChar (n % 10) :: acc := rfl

/-- Successor-fuel reduction rule of `natDigitsGo`. -/
theorem natDigitsGo_succ (f n : Nat) (acc : List Char) :
    natDigitsGo (f + 1) n acc =
      if n < 10 then digitChar n :: acc
      else natDigitsGo f (n / 10) (digitChar (n % 10) :: acc) := rfl

/-- One unfolding of `natChars`, most significant digits first. -/
theorem natChars_unfold (n : Nat) :
    natChars n = (if n < 10 then [] else natChars (n / 10)) ++ [digitChar (n % 10)] := by
  unfold natChars
  by_cases h : n < 10
  · rw [if_pos h]
    match n, h with
    | 0, _ => rfl
    | n + 1, h =>
        rw [natDigitsGo_succ, if_pos h, Nat.mod_eq_of_lt h]
        rfl
  · rw [if_neg h]
    match n, h with
    | n + 1, h =>
        rw [natDigitsGo_succ, if_neg h, natDigitsGo_append n]
        rw [natDigitsGo_fuel ((n + 1) / 10) n ((n + 1) / 10) (by omega) (by omega)]

/-- Every character `natChars` emits is a digit. -/
theorem natChars_digits (n : Nat) : ∀ c ∈ natChars n, isDigitCh c = true := by
  induction n using Nat.strong_induction_on with
  | _ n ih =>
      rw [natChars_unfold]
      intro c hc
      rcases List.mem_append.mp hc with hm | hm
      · by_cases h : n < 10
        · rw [if_pos h] at hm; cases hm
        · rw [if_neg h] at hm
          exact ih (n / 10) (by omega) c hm
      · rcases List.mem_singleton.mp hm with rfl
        exact (digitChar_spec (n % 10) (by omega)).1

/-- `natChars` is never empty. -/
theorem natChars_ne_nil (n : Nat) : natChars n ≠ [] := by
  rw [natChars_unfold]
  intro h
  rcases List.append_eq_nil.mp h with ⟨_, h2⟩
  cases h2

/-- The digit run of `n` denotes `n`. -/
theorem digitsNat_natChars (n : Nat) : digitsNat (natChars n) = n := by
  induction n using Nat.strong_induction_on with
  | _ n ih =>
      rw [natChars_unfold]
      unfold digitsNat
      rw [List.foldl_append]
      by_cases h : n < 10
      · rw [if_pos h]
        show (0 * 10 + ((digitChar (n % 10)).toNat - '0'.toNat)) = n
        rw [(digitChar_spec (n % 10) (by omega)).2.1]
        omega
      · rw [if_neg h]
        have hrec := ih (n / 10) (by omega)
        unfold digitsNat at hrec
        rw [hrec]
        show (n / 10 * 10 + ((digitChar (n % 10)).toNat - '0'.toNat)) = n
        rw [(digitChar_spec (n % 10) (by omega)).2.1]
        omega

/-- The head digit of a nonzero number is not `0`. -/
theorem natChars_head_ne_zero (n : Nat) (hn : n ≠ 0) :
    ∃ c t, natChars n = c :: t ∧ (c == '0') = false := by
  induction n using Nat.strong_induction_on with
  | _ n ih =>
      rw [natChars_unfold]
      by_cases h : n < 10
      · rw [if_pos h]
        refine ⟨digitChar (n % 10), [], rfl, ?_⟩
        rw [(digitChar_spec (n % 10) (by omega)).2.2]
        rw [Nat.mod_eq_of_lt h]
        simp [hn]
      · rw [if_neg h]
        obtain ⟨c, t, hct, hc0⟩ := ih (n / 10) (by omega) (by omega)
        exact ⟨c, t ++ [digitChar (n % 10)], by rw [hct]; rfl, hc0⟩

/-- `natChars` never triggers the leading-zero rejection. -/
theorem natChars_no_leading_zero (n : Nat) : leadingZero (natChars n) = false := by
  by_cases hn : n = 0
  · subst hn; rfl
  · obtain ⟨c, t, hct, hc0⟩ := natChars_head_ne_zero n hn
    rw [hct]
    cases t with
    | nil => rfl
    | cons x y =>
        show (c == '0') = false
        exact hc0

/-- `grabDigits` takes exactly a digit run and stops at a non-digit. -/
theorem grabDigits_exact (ds : List Char) (hds : ∀ c ∈ ds, isDigitCh c = true)
    (rest : List Char) (hrest : intStop rest = true) :
    grabDigits (ds ++ rest) = (ds, rest) := by
  induction ds with
  | nil =>
      cases rest with
      | nil => rfl
      | cons c t =>
          unfold intStop at hrest
          rw [Bool.not_eq_true'] at hrest
          have hc : isDigitCh c = false := by
            cases hx : isDigitCh c with
            | false => rfl
            | true => rw [hx] at hrest; simp at hrest
          show grabDigits (c :: t) = ([], c :: t)
          unfold grabDigits
          rw [hc]
          rfl
  | cons c t ih =>
      have hc : isDigitCh c = true := hds c (List.mem_cons_self c t)
      show grabDigits (c :: (t ++ rest)) = (c :: t, rest)
      unfold grabDigits
      rw [hc]
      rw [ih (fun x hx => hds x (List.mem_cons_of_mem c hx))]
      rfl

/-- A digit is not a minus sign, a dot, or an exponent letter. -/
theorem digit_char_facts (c : Char) (h : isDigitCh c = true) :
    c ≠ '-' ∧ c ≠ '.' ∧ c ≠ 'e' ∧ c ≠ 'E' ∧ isJsonWs c = false ∧
      c ≠ 'n' ∧ c ≠ 't' ∧ c ≠ 'f' ∧ c ≠ '"' ∧ c ≠ '[' ∧ c ≠ ']' ∧
      (c == obrace) = false ∧ (c == cbrace) = false ∧ c ≠ ',' ∧ c ≠ ':' := by
  unfold isDigitCh at h
  rw [Bool.and_eq_true] at h
  have hlo : 48 ≤ c.toNat := by
    have h2 : '0' ≤ c := of_decide_eq_true h.1
    rw [Char.le_def, UInt32.le_def] at h2
    exact h2
  have hhi : c.toNat ≤ 57 := by
    have h2 : c ≤ '9' := of_decide_eq_true h.2
    rw [Char.le_def, UInt32.le_def] at h2
    exact h2
  have hne : ∀ (d : Char), d.toNat ≠ c.toNat → c ≠ d := by
    intro d hd he
    exact hd (by rw [he])
  have hneb : ∀ (d : Char), d.toNat ≠ c.toNat → (c == d) = false := by
    intro d hd
    cases hx : (c == d) with
    | false => rfl
    | true => exact absurd (congrArg Char.toNat (eq_of_beq hx)) (fun hh => hd hh.symm)
  refine ⟨hne '-' (by intro hh; rw [show ('-').toNat = 45 from rfl] at hh; omega),
         hne '.' (by intro hh; rw [show ('.').toNat = 46 from rfl] at hh; omega),
         hne 'e' (by intro hh; rw [show ('e').toNat = 101 from rfl] at hh; omega),
         hne 'E' (by intro hh; rw [show ('E').toNat = 69 from rfl] at hh; omega),
         ?_,
         hne 'n' (by intro hh; rw [show ('n').toNat = 110 from rfl] at hh; omega),
         hne 't' (by intro hh; rw [show ('t').toNat = 116 from rfl] at hh; omega),
         hne 'f' (by intro hh; rw [show ('f').toNat = 102 from rfl] at hh; omega),
         hne '"' (by intro hh; rw [show ('"').toNat = 34 from rfl] at hh; omega),
         hne '[' (by intro hh; rw [show ('[').toNat = 91 from rfl] at hh; omega),
         hne ']' (by intro hh; rw [show (']').toNat = 93 from rfl] at hh; omega),
         hneb obrace (by intro hh; rw [show obrace.toNat = 123 from rfl] at hh; omega),
         hneb cbrace (by intro hh; rw [show cbrace.toNat = 125 from rfl] at hh; omega),
         hne ',' (by intro hh; rw [show (',').toNat = 44 from rfl] at hh; omega),
         hne ':' (by intro hh; rw [show (':').toNat = 58 from rfl] at hh; omega)⟩
  unfold isJsonWs
  rw [hneb ' ' (by intro hh; rw [show (' ').toNat = 32 from rfl] at hh; omega),
      hneb '\t' (by intro hh; rw [show ('\t').toNat = 9 from rfl] at hh; omega),
      hneb '\n' (by intro hh; rw [show ('\n').toNat = 10 from rfl] at hh; omega),
      hneb '\r' (by intro hh; rw [show ('\r').toNat = 13 from rfl] at hh; omega)]
  rfl

/-- An integer-stopping remainder cannot start a float suffix. -/
theorem intStop_no_float (rest : List Char) (hr : intStop rest = true) :
    floatFollows rest = false := by
  cases rest with
  | nil => rfl
  | cons c t =>
      unfold intStop at hr
      rw [Bool.not_eq_true'] at hr
      unfold floatFollows
      cases hd : isDigitCh c <;> cases h1 : (c == '.') <;> cases h2 : (c == 'e') <;>
        cases h3 : (c == 'E') <;> simp_all

/-- An integer-stopping remainder does not start with a digit. -/
theorem intStop_not_digit (rest : List Char) (hr : intStop rest = true) :
    ∀ c t, rest = c :: t → isDigitCh c = false := by
  intro c t he
  subst he
  unfold intStop at hr
  rw [Bool.not_eq_true'] at hr
  cases hd : isDigitCh c with
  | false => rfl
  | true => rw [hd] at hr; simp at hr

/-- `parseIntTok` on input that does not start with a minus sign. -/
theorem parseIntTok_not_minus (c : Char) (t : List Char) (hc : c ≠ '-') :
    parseIntTok (c :: t) =
      (match grabDigits (c :: t) with
       | ([], _) => none
       | (ds, rest) =>
           if leadingZero ds || floatFollows rest then none
           else some ((digitsNat ds : Int), rest)) := by
  unfold parseIntTok
  split
  · rename_i heq
    rw [List.cons.injEq] at heq
    exact absurd heq.1 hc
  · rfl

/-- The integer literal codec round-trip. -/
theorem parseIntTok_intChars (i : Int) (rest : List Char) (hr : intStop rest = true) :
    parseIntTok (intChars i ++ rest) = some (i, rest) := by
  have hg : grabDigits (natChars i.natAbs ++ rest) = (natChars i.natAbs, rest) :=
    grabDigits_exact (natChars i.natAbs) (natChars_digits i.natAbs) rest hr
  obtain ⟨c, t, hct⟩ : ∃ c t, natChars i.natAbs = c :: t := by
    cases h : natChars i.natAbs with
    | nil => exact absurd h (natChars_ne_nil _)
    | cons a b => exact ⟨a, b, rfl⟩
  have hlz : leadingZero (natChars i.natAbs) = false := natChars_no_leading_zero i.natAbs
  have hff : floatFollows rest = false := intStop_no_float rest hr
  by_cases hi : i < 0
  · have harg : intChars i ++ rest = '-' :: (natChars i.natAbs ++ rest) := by
      unfold intChars
      rw [if_pos hi]
      rfl
    rw [harg]
    show (match grabDigits (natChars i.natAbs ++ rest) with
      | ([], _) => none
      | (ds, rest) =>
          if leadingZero ds || floatFollows rest then none
          else some (-(digitsNat ds : Int), rest)) = some (i, rest)
    rw [hg, hct]
    dsimp only
    rw [show leadingZero (c :: t) = false from by rw [← hct]; exact hlz]
    rw [hff]
    show some (-(digitsNat (c :: t) : Int), rest) = some (i, rest)
    rw [← hct, digitsNat_natChars]
    have : -(i.natAbs : Int) = i := by omega
    rw [this]
  · have harg : intChars i ++ rest = natChars i.natAbs ++ rest := by
      unfold intChars
      rw [if_neg hi]
      rfl
    rw [harg, hct, List.cons_append]
    have hcd : isDigitCh c = true := by
      apply natChars_digits i.natAbs
      rw [hct]
      exact List.mem_cons_self c t
    rw [parseIntTok_not_minus c (t ++ rest) (digit_char_facts c hcd).1]
    rw [show (c :: (t ++ rest)) = (c :: t) ++ rest from rfl, ← hct, hg, hct]
    dsimp only
    rw [show leadingZero (c :: t) = false from by rw [← hct]; exact hlz]
    rw [hff]
    show some ((digitsNat (c :: t) : Int), rest) = some (i, rest)
    rw [← hct, digitsNat_natChars]
    have : ((i.natAbs : Int)) = i := by omega
    rw [this]

/-- `hexNum` inverts `hexDigitChar` below 16. -/
theorem hexNum_hexDigitChar (k : Nat) (h : k < 16) :
    hexNum (hexDigitChar k) = some k := by
  have hall : ∀ i : Fin 16, hexNum (hexDigitChar i.val) = some i.val := by decide
  exact hall ⟨k, h⟩

/-- A plain character (no escape, not a control character) passes through
`strBody` unchanged. -/
theorem strBody_cons_other (c : Char) (acc rest : List Char)
    (hq : c ≠ '"') (hb : c ≠ '\\') (hge : ¬(c.toNat < 32)) :
    strBody acc (c :: rest) = strBody (c :: acc) rest := by
  conv_lhs => unfold strBody
  simp [hq, hb, hge]

/-- Turn a failed boolean test into a disequality. -/
theorem ne_of_not_beq {c d : Char} (h : ¬((c == d) = true)) : c ≠ d :=
  ne_of_beq_false (by cases hx : (c == d) with
    | false => rfl
    | true => exact absurd hx h)

/-- The `\u` arm of `strBody`, as a rewriting equation. -/
theorem strBody_unicode (a b x d : Char) (acc r : List Char) :
    strBody acc ('\\' :: 'u' :: a :: b :: x :: d :: r) =
      (match hexNum a, hexNum b, hexNum x, hexNum d with
       | some x1, some x2, some x3, some x4 =>
           strBody (Char.ofNat (((x1 * 16 + x2) * 16 + x3) * 16 + x4) :: acc) r
       | _, _, _, _ => none) := rfl

/-- Reading one escaped character undoes its escape. -/
theorem strBody_escapeChar (c : Char) (acc rest : List Char) :
    strBody acc (escapeChar c ++ rest) = strBody (c :: acc) rest := by
  unfold escapeChar
  by_cases h1 : (c == '"') = true
  · rw [if_pos h1, eq_of_beq h1]; rfl
  · rw [if_neg h1]
    by_cases h2 : (c == '\\') = true
    · rw [if_pos h2, eq_of_beq h2]; rfl
    · rw [if_neg h2]
      by_cases h3 : (c == '\n') = true
      · rw [if_pos h3, eq_of_beq h3]; rfl
      · rw [if_neg h3]
        by_cases h4 : (c == '\r') = true
        · rw [if_pos h4, eq_of_beq h4]; rfl
        · rw [if_neg h4]
          by_cases h5 : (c == '\t') = true
          · rw [if_pos h5, eq_of_beq h5]; rfl
          · rw [if_neg h5]
            by_cases h6 : (c == Char.ofNat 8) = true
            · rw [if_pos h6, eq_of_beq h6]; rfl
            · rw [if_neg h6]
              by_cases h7 : (c == Char.ofNat 12) = true
              · rw [if_pos h7, eq_of_beq h7]; rfl
              · rw [if_neg h7]
                by_cases h8 : c.toNat < 32
                · rw [if_pos h8]
                  show strBody acc ('\\' :: 'u' :: '0' :: '0' ::
                    hexDigitChar (c.toNat / 16) :: hexDigitChar (c.toNat % 16) :: rest) =
                      strBody (c :: acc) rest
                  rw [strBody_unicode]
                  rw [show hexNum '0' = some ('0'.toNat - '0'.toNat) from rfl]
                  rw [hexNum_hexDigitChar (c.toNat / 16) (by omega),
                      hexNum_hexDigitChar (c.toNat % 16) (by omega)]
                  dsimp only
                  rw [show (((('0'.toNat - '0'.toNat) * 16 + ('0'.toNat - '0'.toNat)) * 16 +
                        c.toNat / 16) * 16 + c.toNat % 16) = c.toNat from by omega]
                  rw [Char.ofNat_toNat]
                · rw [if_neg h8]
                  show strBody acc (c :: rest) = strBody (c :: acc) rest
                  exact strBody_cons_other c acc rest (ne_of_not_beq h1)
                    (ne_of_not_beq h2) h8

/-- Reading a fully escaped body stops exactly at the closing quote. -/
theorem strBody_escapeAll (s : Str) : ∀ (acc rest : List Char),
    strBody acc (escapeAll s ++ '"' :: rest) = some (acc.reverse ++ s, rest) := by
  induction s with
  | nil =>
      intro acc rest
      show strBody acc ('"' :: rest) = some (acc.reverse ++ [], rest)
      rw [List.append_nil]
      rfl
  | cons c s ih =>
      intro acc rest
      show strBody acc ((escapeChar c ++ escapeAll s) ++ '"' :: rest) = _
      rw [List.append_assoc, strBody_escapeChar, ih]
      rw [List.reverse_cons, List.append_assoc]
      rfl

/-- The reduction rule of `dropWs` on a cons cell. -/
theorem dropWs_cons (c : Char) (t : List Char) :
    dropWs (c :: t) = if isJsonWs c = true then dropWs t else c :: t := rfl

/-- `dropWs` ignores an indentation run. -/
theorem dropWs_mkIndent (n : Nat) (x : List Char) :
    dropWs (mkIndent n ++ x) = dropWs x := by
  induction n with
  | zero => rfl
  | succ n ih =>
      show dropWs (' ' :: (mkIndent n ++ x)) = dropWs x
      rw [dropWs_cons, if_pos (show isJsonWs ' ' = true from rfl)]
      exact ih

/-- `dropWs` ignores a newline. -/
theorem dropWs_newline (x : List Char) : dropWs ('\n' :: x) = dropWs x := by
  rw [dropWs_cons, if_pos (show isJsonWs '\n' = true from rfl)]

/-- `dropWs` keeps a non-whitespace-headed list intact. -/
theorem dropWs_no_ws (c : Char) (x : List Char) (h : isJsonWs c = false) :
    dropWs (c :: x) = c :: x := by
  rw [dropWs_cons, if_neg (by rw [h]; exact Bool.false_ne_true)]

/-- `dropWs` is idempotent. -/
theorem dropWs_idem (l : List Char) : dropWs (dropWs l) = dropWs l := by
  induction l with
  | nil => rfl
  | cons c t ih =>
      by_cases h : isJsonWs c = true
      · rw [dropWs_cons, if_pos h]
        exact ih
      · rw [Bool.not_eq_true] at h
        rw [dropWs_no_ws c t h]
        exact dropWs_no_ws c t h

/-- Every serialized value starts with a character that is neither whitespace
nor a closing bracket. -/
theorem dumpsV_head (ind : Nat) (j : JValue) :
    ∃ c t, dumpsV ind j = c :: t ∧ isJsonWs c = false ∧ c ≠ ']' := by
  cases j with
  | null => exact ⟨'n', _, rfl, by decide, by decide⟩
  | bool b =>
      cases b with
      | true => exact ⟨'t', _, rfl, by decide, by decide⟩
      | false => exact ⟨'f', _, rfl, by decide, by decide⟩
  | int n =>
      by_cases hn : n < 0
      · refine ⟨'-', natChars n.natAbs, ?_, by decide, by decide⟩
        show intChars n = _
        unfold intChars
        rw [if_pos hn]
        rfl
      · obtain ⟨c, t, hct⟩ : ∃ c t, natChars n.natAbs = c :: t := by
          cases h : natChars n.natAbs with
          | nil => exact absurd h (natChars_ne_nil _)
          | cons a b => exact ⟨a, b, rfl⟩
        have hcd : isDigitCh c = true := by
          apply natChars_digits n.natAbs
          rw [hct]
          exact List.mem_cons_self c t
        have hfacts := digit_char_facts c hcd
        refine ⟨c, t, ?_, hfacts.2.2.2.2.1, hfacts.2.2.2.2.2.2.2.2.2.2.1⟩
        show intChars n = c :: t
        unfold intChars
        rw [if_neg hn, hct]
        rfl
  | str s => exact ⟨'"', _, rfl, by decide, by decide⟩
  | arr es =>
      cases es with
      | nil => exact ⟨'[', _, rfl, by decide, by decide⟩
      | cons e t => exact ⟨'[', _, rfl, by decide, by decide⟩
  | obj kvs =>
      cases kvs with
      | nil => exact ⟨obrace, _, rfl, by decide, by decide⟩
      | cons kv t => exact ⟨obrace, _, rfl, by decide, by decide⟩

/-- `dropWs` does not touch the start of a serialized value. -/
theorem dropWs_dumpsV (ind : Nat) (j : JValue) (x : List Char) :
    dropWs (dumpsV ind j ++ x) = dumpsV ind j ++ x := by
  obtain ⟨c, t, hct, hws, _⟩ := dumpsV_head ind j
  rw [hct, List.cons_append, dropWs_no_ws c (t ++ x) hws]

/-- Elements of a well-formed element list are well-formed. -/
theorem wfElemsB_mem (es : List JValue) (h : wfElemsB es = true) :
    ∀ e ∈ es, JValue.wfB e = true := by
  induction es with
  | nil => intro e he; cases he
  | cons v t ih =>
      unfold wfElemsB at h
      rw [Bool.and_eq_true] at h
      intro e he
      rcases List.mem_cons.mp he with rfl | he0
      · exact h.1
      · exact ih h.2 e he0

/-- Values of a well-formed entry list are well-formed. -/
theorem wfEntriesB_mem (kvs : List (Str × JValue)) (h : wfEntriesB kvs = true) :
    ∀ kv ∈ kvs, JValue.wfB kv.2 = true := by
  induction kvs with
  | nil => intro kv hkv; cases hkv
  | cons kv0 t ih =>
      cases kv0 with
      | mk k v =>
          unfold wfEntriesB at h
          rw [Bool.and_eq_true] at h
          intro kv hkv
          rcases List.mem_cons.mp hkv with rfl | h0
          · exact h.1
          · exact ih h.2 kv h0

/-- An absent key differs from every stored key. -/
theorem alookup_none_mem {α : Type} (k : Str) (t : List (Str × α))
    (h : alookup k t = none) : ∀ kv ∈ t, (kv.1 == k) = false := by
  induction t with
  | nil => intro kv hkv; cases hkv
  | cons kv0 t ih =>
      cases kv0 with
      | mk k0 v0 =>
          intro kv hkv
          by_cases hk : (k0 == k) = true
          · rw [alookup_cons_hit k k0 v0 t hk] at h; cases h
          · rw [Bool.not_eq_true] at hk
            rw [alookup_cons_miss k k0 v0 t hk] at h
            rcases List.mem_cons.mp hkv with rfl | h0
            · exact hk
            · exact ih h kv h0

/-- Building a dictionary from fresh, duplicate-free pairs just appends them. -/
theorem foldl_aset_fresh {α : Type} (ps : List (Str × α)) :
    ∀ acc : List (Str × α), (∀ kv ∈ ps, alookup kv.1 acc = none) →
      nodupKeysB ps = true →
      ps.foldl (fun d kv => aset kv.1 kv.2 d) acc = acc ++ ps := by
  induction ps with
  | nil => intro acc _ _; rw [List.append_nil]; rfl
  | cons kv t ih =>
      intro acc hfresh hnd
      cases kv with
      | mk k v =>
          unfold nodupKeysB at hnd
          rw [Bool.and_eq_true] at hnd
          have hkt : alookup k t = none := by
            have h1 := hnd.1
            rw [Bool.not_eq_true'] at h1
            cases ho : alookup k t with
            | none => rfl
            | some w => rw [ho] at h1; cases h1
          have hacc : alookup k acc = none := hfresh (k, v) (List.mem_cons_self _ _)
          rw [List.foldl_cons]
          have hset : aset k v acc = acc ++ [(k, v)] := by
            unfold aset
            rw [if_neg (by rw [hacc]; exact Bool.false_ne_true)]
          rw [hset]
          rw [ih (acc ++ [(k, v)]) ?_ hnd.2]
          · rw [List.append_assoc]
            rfl
          · intro kv2 hkv2
            rw [alookup_append]
            rw [hfresh kv2 (List.mem_cons_of_mem _ hkv2)]
            have hne : (k == kv2.1) = false := by
              have h0 := alookup_none_mem k t hkt kv2 hkv2
              rw [beq_eq_false_iff_ne] at h0 ⊢
              exact fun he => h0 he.symm
            show optOr none (alookup kv2.1 [(k, v)]) = none
            rw [show alookup kv2.1 [(k, v)] = none from by
              simp only [alookup]
              rw [if_neg (by rw [hne]; exact Bool.false_ne_true)]]
            rfl

/-- On duplicate-free pairs, dictionary building is the identity. -/
theorem dict_of_pairs_of_nodup {α : Type} (ps : List (Str × α))
    (h : nodupKeysB ps = true) : dict_of_pairs ps = ps := by
  unfold dict_of_pairs
  rw [foldl_aset_fresh ps [] (fun kv _ => rfl) h]
  rfl

/-- `parseVal` only looks at its input through `dropWs`. -/
theorem parseVal_congr (f : Nat) (x y : List Char) (h : dropWs x = dropWs y) :
    parseVal f x = parseVal f y := by
  cases f with
  | zero => rfl
  | succ f => unfold parseVal; rw [h]

/-- `parseElems` only looks at its input through `dropWs`. -/
theorem parseElems_congr (f : Nat) (x y : List Char) (h : dropWs x = dropWs y) :
    parseElems f x = parseElems f y := by
  cases f with
  | zero => rfl
  | succ f => unfold parseElems; rw [parseVal_congr f x y h]

/-- `parseEntries` only looks at its input through `dropWs`. -/
theorem parseEntries_congr (f : Nat) (x y : List Char) (h : dropWs x = dropWs y) :
    parseEntries f x = parseEntries f y := by
  cases f with
  | zero => rfl
  | succ f => unfold parseEntries; rw [h]

/-- Reduction of `parseVal` on a string literal. -/
theorem parseVal_quote (f : Nat) (r : List Char) :
    parseVal (f + 1) ('"' :: r) =
      (match strBody [] r with
       | some p => some (JValue.str p.1, p.2)
       | none => none) := rfl

/-- Reduction of `parseVal` on an array opener. -/
theorem parseVal_lbracket (f : Nat) (r : List Char) :
    parseVal (f + 1) ('[' :: r) =
      (match dropWs r with
       | ']' :: r2 => some (JValue.arr [], r2)
       | l2 =>
           match parseElems f l2 with
           | some p => some (JValue.arr p.1, p.2)
           | none => none) := rfl

/-- Reduction of `parseVal` on an object opener. -/
theorem parseVal_obrace (f : Nat) (r : List Char) :
    parseVal (f + 1) (obrace :: r) =
      (match dropWs r with
       | [] => none
       | c2 :: r2 =>
           if c2 == cbrace then some (JValue.obj [], r2)
           else
             match parseEntries f (c2 :: r2) with
             | some p => some (JValue.obj (dict_of_pairs p.1), p.2)
             | none => none) := rfl

/-- Reduction of `parseElems` at successor fuel. -/
theorem parseElems_step (f : Nat) (l : List Char) :
    parseElems (f + 1) l =
      (match parseVal f l with
       | none => none
       | some (v, r) =>
           match dropWs r with
           | ',' :: r2 =>
               (match parseElems f r2 with
                | some p => some (v :: p.1, p.2)
                | none => none)
           | ']' :: r2 => some ([v], r2)
           | _ => none) := rfl

/-- Reduction of `parseEntries` at successor fuel. -/
theorem parseEntries_step (f : Nat) (l : List Char) :
    parseEntries (f + 1) l =
      (match dropWs l with
       | '"' :: r =>
           (match strBody [] r with
            | none => none
            | some (k, r1) =>
                match dropWs r1 with
                | ':' :: r2 =>
                    (match parseVal f r2 with
                     | none => none
                     | some (v, r3) =>
                         match dropWs r3 with
                         | ',' :: r4 =>
                             (match parseEntries f r4 with
                              | some p => some ((k, v) :: p.1, p.2)
                              | none => none)
                         | c :: r4 => if c == cbrace then some ([(k, v)], r4) else none
                         | [] => none)
                | _ => none)
       | _ => none) := rfl

/-- Length of an indentation run. -/
theorem mkIndent_length (n : Nat) : (mkIndent n).length = n := by
  induction n with
  | zero => rfl
  | succ n ih =>
      show (' ' :: mkIndent n).length = n + 1
      rw [List.length_cons, ih]

/-- `parseVal` on a head that starts no keyword, string, array or object
dispatches to the integer reader. -/
theorem parseVal_other (f : Nat) (c : Char) (r : List Char)
    (hws : isJsonWs c = false) (hn : c ≠ 'n') (ht : c ≠ 't') (hf : c ≠ 'f')
    (hq : c ≠ '"') (hb : c ≠ '[') (hob : (c == obrace) = false) :
    parseVal (f + 1) (c :: r) =
      (match parseIntTok (c :: r) with
       | some p => some (JValue.int p.1, p.2)
       | none => none) := by
  unfold parseVal
  rw [dropWs_no_ws c r hws]
  simp [hn, ht, hf, hq, hb, hob]


/-- `dropWs` ignores a space. -/
theorem dropWs_space (x : List Char) : dropWs (' ' :: x) = dropWs x := by
  rw [dropWs_cons, if_pos (show isJsonWs ' ' = true from rfl)]

/-- `parseEntries` on an input whose significant head is a key quote. -/
theorem parseEntries_quote (f : Nat) (l r : List Char) (h : dropWs l = '"' :: r) :
    parseEntries (f + 1) l =
      (match strBody [] r with
       | none => none
       | some (k, r1) =>
           match dropWs r1 with
           | ':' :: r2 =>
               (match parseVal f r2 with
                | none => none
                | some (v, r3) =>
                    match dropWs r3 with
                    | ',' :: r4 =>
                        (match parseEntries f r4 with
                         | some p => some ((k, v) :: p.1, p.2)
                         | none => none)
                    | c :: r4 => if c == cbrace then some ([(k, v)], r4) else none
                    | [] => none)
           | _ => none) := by
  rw [parseEntries_step, h]
  exact rfl

mutual
/-- Parsing a serialized well-formed value recovers it exactly. -/
theorem rt_val : ∀ (j : JValue) (ind fuel : Nat) (rest : List Char),
    JValue.wfB j = true → (dumpsV ind j).length < fuel → intStop rest = true →
    parseVal fuel (dumpsV ind j ++ rest) = some (j, rest)
  | .null, _, fuel, rest, _, hf, _ => by
      cases fuel with
      | zero => exact absurd hf (Nat.not_lt_zero _)
      | succ f => rfl
  | .bool true, _, fuel, rest, _, hf, _ => by
      cases fuel with
      | zero => exact absurd hf (Nat.not_lt_zero _)
      | succ f => rfl
  | .bool false, _, fuel, rest, _, hf, _ => by
      cases fuel with
      | zero => exact absurd hf (Nat.not_lt_zero _)
      | succ f => rfl
  | .int n, ind, fuel, rest, _, hf, hr => by
      cases fuel with
      | zero => exact absurd hf (Nat.not_lt_zero _)
      | succ f =>
          show parseVal (f + 1) (intChars n ++ rest) = some (JValue.int n, rest)
          by_cases hn : n < 0
          · have harg : intChars n ++ rest = '-' :: (natChars n.natAbs ++ rest) := by
              unfold intChars
              rw [if_pos hn]
              rfl
            rw [harg, parseVal_other f '-' _ (by decide) (by decide) (by decide) (by decide)
              (by decide) (by decide) (by decide)]
            rw [← harg, parseIntTok_intChars n rest hr]
          · obtain ⟨c, t, hct⟩ : ∃ c t, natChars n.natAbs = c :: t := by
              cases h : natChars n.natAbs with
              | nil => exact absurd h (natChars_ne_nil _)
              | cons a b => exact ⟨a, b, rfl⟩
            have hcd : isDigitCh c = true := by
              apply natChars_digits n.natAbs
              rw [hct]
              exact List.mem_cons_self c t
            have hfacts := digit_char_facts c hcd
            have harg : intChars n ++ rest = c :: (t ++ rest) := by
              unfold intChars
              rw [if_neg hn, hct]
              rfl
            rw [harg, parseVal_other f c _ hfacts.2.2.2.2.1 hfacts.2.2.2.2.2.1
              hfacts.2.2.2.2.2.2.1 hfacts.2.2.2.2.2.2.2.1 hfacts.2.2.2.2.2.2.2.2.1
              hfacts.2.2.2.2.2.2.2.2.2.1 hfacts.2.2.2.2.2.2.2.2.2.2.2.1]
            rw [← harg, parseIntTok_intChars n rest hr]
  | .str s, ind, fuel, rest, _, hf, _ => by
      cases fuel with
      | zero => exact absurd hf (Nat.not_lt_zero _)
      | succ f =>
          have harg : dumpsV ind (JValue.str s) ++ rest =
              '"' :: (escapeAll s ++ '"' :: rest) := by
            show encStr s ++ rest = _
            unfold encStr
            rw [List.cons_append, List.append_assoc]
            rfl
          rw [harg, parseVal_quote, strBody_escapeAll s [] rest]
          rfl
  | .arr [], ind, fuel, rest, _, hf, _ => by
      cases fuel with
      | zero => exact absurd hf (Nat.not_lt_zero _)
      | succ f =>
          show parseVal (f + 1) ('[' :: ']' :: rest) = some (JValue.arr [], rest)
          rw [parseVal_lbracket]
          rfl
  | .arr (e :: es), ind, fuel, rest, hw, hf, _ => by
      cases fuel with
      | zero => exact absurd hf (Nat.not_lt_zero _)
      | succ f =>
          have hw2 : wfElemsB (e :: es) = true := hw
          have harg : dumpsV ind (JValue.arr (e :: es)) ++ rest =
              '[' :: ('\n' :: (dumpsElems (ind + 2) (e :: es) ++
                ('\n' :: (mkIndent ind ++ (']' :: rest))))) := by
            show ('[' :: '\n' :: (dumpsElems (ind + 2) (e :: es) ++
              '\n' :: (mkIndent ind ++ [']']))) ++ rest = _
            rw [List.cons_append, List.cons_append, List.append_assoc]
            rw [List.cons_append, List.append_assoc]
            rfl
          obtain ⟨c, ct, hct, hcws, hcbr⟩ := dumpsV_head (ind + 2) e
          have helems : dumpsElems (ind + 2) (e :: es) ++
              ('\n' :: (mkIndent ind ++ (']' :: rest))) =
              mkIndent (ind + 2) ++ (dumpsV (ind + 2) e ++
                elemsTail (ind + 2) ind es rest) := by
            cases es with
            | nil =>
                show (mkIndent (ind + 2) ++ dumpsV (ind + 2) e) ++ _ = _
                rw [List.append_assoc]
                rfl
            | cons x tx =>
                show (mkIndent (ind + 2) ++ (dumpsV (ind + 2) e ++
                  ',' :: '\n' :: dumpsElems (ind + 2) (x :: tx))) ++ _ = _
                rw [List.append_assoc, List.append_assoc]
                rfl
          have hdrop : dropWs ('\n' :: (dumpsElems (ind + 2) (e :: es) ++
              ('\n' :: (mkIndent ind ++ (']' :: rest))))) =
              c :: (ct ++ elemsTail (ind + 2) ind es rest) := by
            rw [dropWs_newline, helems, dropWs_mkIndent, dropWs_dumpsV, hct,
                List.cons_append]
          rw [harg, parseVal_lbracket, hdrop]
          have hfe : (dumpsElems (ind + 2) (e :: es)).length + 1 < f := by
            have h2 := hf
            rw [show dumpsV ind (JValue.arr (e :: es)) =
              '[' :: '\n' :: (dumpsElems (ind + 2) (e :: es) ++
                '\n' :: (mkIndent ind ++ [']'])) from rfl] at h2
            simp only [List.length_cons, List.length_append] at h2
            omega
          have hcongr : parseElems f (c :: (ct ++ elemsTail (ind + 2) ind es rest)) =
              parseElems f (dumpsElems (ind + 2) (e :: es) ++
                ('\n' :: (mkIndent ind ++ (']' :: rest)))) := by
            apply parseElems_congr
            rw [dropWs_no_ws c _ hcws, helems, dropWs_mkIndent, dropWs_dumpsV, hct,
                List.cons_append]
          split
          · rename_i r2 heq
            rw [List.cons.injEq] at heq
            exact absurd heq.1 hcbr
          · rw [hcongr, rt_elems e es (ind + 2) ind f rest hw2 hfe]
  | .obj [], ind, fuel, rest, _, hf, _ => by
      cases fuel with
      | zero => exact absurd hf (Nat.not_lt_zero _)
      | succ f =>
          show parseVal (f + 1) (obrace :: cbrace :: rest) = some (JValue.obj [], rest)
          rw [parseVal_obrace]
          rfl
  | .obj (kv :: kvs), ind, fuel, rest, hw, hf, _ => by
      cases fuel with
      | zero => exact absurd hf (Nat.not_lt_zero _)
      | succ f =>
          have hw2 : (nodupKeysB (kv :: kvs) && wfEntriesB (kv :: kvs)) = true := hw
          rw [Bool.and_eq_true] at hw2
          have harg : dumpsV ind (JValue.obj (kv :: kvs)) ++ rest =
              obrace :: ('\n' :: (dumpsEntries (ind + 2) (kv :: kvs) ++
                ('\n' :: (mkIndent ind ++ (cbrace :: rest))))) := by
            show (obrace :: '\n' :: (dumpsEntries (ind + 2) (kv :: kvs) ++
              '\n' :: (mkIndent ind ++ [cbrace]))) ++ rest = _
            rw [List.cons_append, List.cons_append, List.append_assoc]
            rw [List.cons_append, List.append_assoc]
            rfl
          have hentries : dumpsEntries (ind + 2) (kv :: kvs) ++
              ('\n' :: (mkIndent ind ++ (cbrace :: rest))) =
              mkIndent (ind + 2) ++ ('"' :: (escapeAll kv.1 ++ '"' ::
                entriesTail (ind + 2) ind kv.2 kvs rest)) := by
            cases kv with
            | mk ky v =>
                cases kvs with
                | nil =>
                    show (mkIndent (ind + 2) ++ (encStr ky ++ ':' :: ' ' ::
                      dumpsV (ind + 2) v)) ++
                      ('\n' :: (mkIndent ind ++ (cbrace :: rest))) =
                      mkIndent (ind + 2) ++ ('"' :: (escapeAll ky ++ '"' ::
                        (':' :: ' ' :: (dumpsV (ind + 2) v ++
                          ('\n' :: (mkIndent ind ++ (cbrace :: rest)))))))
                    unfold encStr
                    simp only [List.cons_append, List.nil_append, List.append_assoc]
                | cons kv2 t2 =>
                    show (mkIndent (ind + 2) ++ (encStr ky ++ ':' :: ' ' ::
                      (dumpsV (ind + 2) v ++ ',' :: '\n' ::
                        dumpsEntries (ind + 2) (kv2 :: t2)))) ++
                      ('\n' :: (mkIndent ind ++ (cbrace :: rest))) =
                      mkIndent (ind + 2) ++ ('"' :: (escapeAll ky ++ '"' ::
                        (':' :: ' ' :: (dumpsV (ind + 2) v ++
                          (',' :: '\n' :: (dumpsEntries (ind + 2) (kv2 :: t2) ++
                            ('\n' :: (mkIndent ind ++ (cbrace :: rest)))))))))
                    unfold encStr
                    simp only [List.cons_append, List.nil_append, List.append_assoc]
          have hdrop : dropWs ('\n' :: (dumpsEntries (ind + 2) (kv :: kvs) ++
              ('\n' :: (mkIndent ind ++ (cbrace :: rest))))) =
              '"' :: (escapeAll kv.1 ++ '"' ::
                entriesTail (ind + 2) ind kv.2 kvs rest) := by
            rw [dropWs_newline, hentries, dropWs_mkIndent,
                dropWs_no_ws '"' _ (by decide)]
          rw [harg, parseVal_obrace, hdrop]
          have hfo : (dumpsEntries (ind + 2) (kv :: kvs)).length + 1 < f := by
            have h2 := hf
            rw [show dumpsV ind (JValue.obj (kv :: kvs)) =
              obrace :: '\n' :: (dumpsEntries (ind + 2) (kv :: kvs) ++
                '\n' :: (mkIndent ind ++ [cbrace])) from rfl] at h2
            simp only [List.length_cons, List.length_append] at h2
            omega
          have hcongr : parseEntries f ('"' :: (escapeAll kv.1 ++ '"' ::
              entriesTail (ind + 2) ind kv.2 kvs rest)) =
              parseEntries f (dumpsEntries (ind + 2) (kv :: kvs) ++
                ('\n' :: (mkIndent ind ++ (cbrace :: rest)))) := by
            apply parseEntries_congr
            rw [hentries, dropWs_mkIndent, dropWs_no_ws '"' _ (by decide)]
          dsimp only
          rw [if_neg (by decide : ¬(('"' == cbrace) = true))]
          rw [hcongr, rt_entries kv kvs (ind + 2) ind f rest hw2.2 hfo]
          show some (JValue.obj (dict_of_pairs (kv :: kvs)), rest) =
            some (JValue.obj (kv :: kvs), rest)
          rw [dict_of_pairs_of_nodup (kv :: kvs) hw2.1]
  termination_by j _ _ _ _ _ _ => sizeOf j
/-- Parsing serialized well-formed elements up to the closing bracket. -/
theorem rt_elems : ∀ (e : JValue) (es : List JValue) (ind k fuel : Nat) (rest : List Char),
    wfElemsB (e :: es) = true →
    (dumpsElems ind (e :: es)).length + 1 < fuel →
    parseElems fuel (dumpsElems ind (e :: es) ++
      ('\n' :: (mkIndent k ++ (']' :: rest)))) = some (e :: es, rest)
  | e, [], ind, k, fuel, rest, hw, hf => by
      cases fuel with
      | zero => exact absurd hf (Nat.not_lt_zero _)
      | succ f =>
          have hwe : JValue.wfB e = true := by
            have h2 : (JValue.wfB e && wfElemsB []) = true := hw
            rw [Bool.and_eq_true] at h2
            exact h2.1
          have hfe : (dumpsV ind e).length < f := by
            have h2 := hf
            rw [show dumpsElems ind [e] = mkIndent ind ++ dumpsV ind e from rfl,
                List.length_append] at h2
            omega
          rw [parseElems_step]
          have htext : dumpsElems ind [e] ++ ('\n' :: (mkIndent k ++ (']' :: rest))) =
              mkIndent ind ++ (dumpsV ind e ++ ('\n' :: (mkIndent k ++ (']' :: rest)))) := by
            show (mkIndent ind ++ dumpsV ind e) ++ _ = _
            rw [List.append_assoc]
          rw [htext, parseVal_congr f _
            (dumpsV ind e ++ ('\n' :: (mkIndent k ++ (']' :: rest))))
            (by rw [dropWs_mkIndent])]
          rw [rt_val e ind f _ hwe hfe (by rfl)]
          dsimp only
          rw [show dropWs ('\n' :: (mkIndent k ++ (']' :: rest))) = ']' :: rest from by
            rw [dropWs_newline, dropWs_mkIndent, dropWs_no_ws ']' rest (by decide)]]
          split
          · rename_i r2 heq
            rw [List.cons.injEq] at heq
            exact absurd heq.1 (by decide)
          · rename_i r2 heq
            rw [List.cons.injEq] at heq
            rw [heq.2]
          · rename_i hc1 hc2
            exact absurd rfl (hc2 rest)
  | e, x :: tx, ind, k, fuel, rest, hw, hf => by
      cases fuel with
      | zero => exact absurd hf (Nat.not_lt_zero _)
      | succ f =>
          have hw2 : (JValue.wfB e && wfElemsB (x :: tx)) = true := hw
          rw [Bool.and_eq_true] at hw2
          have hfe : (dumpsV ind e).length < f := by
            have h2 := hf
            rw [show dumpsElems ind (e :: x :: tx) = mkIndent ind ++ (dumpsV ind e ++
              ',' :: '\n' :: dumpsElems ind (x :: tx)) from rfl] at h2
            simp only [List.length_append, List.length_cons] at h2
            omega
          have hfx : (dumpsElems ind (x :: tx)).length + 1 < f := by
            have h2 := hf
            rw [show dumpsElems ind (e :: x :: tx) = mkIndent ind ++ (dumpsV ind e ++
              ',' :: '\n' :: dumpsElems ind (x :: tx)) from rfl] at h2
            simp only [List.length_append, List.length_cons] at h2
            omega
          rw [parseElems_step]
          have htext : dumpsElems ind (e :: x :: tx) ++
              ('\n' :: (mkIndent k ++ (']' :: rest))) =
              mkIndent ind ++ (dumpsV ind e ++ (',' :: '\n' ::
                (dumpsElems ind (x :: tx) ++ ('\n' :: (mkIndent k ++ (']' :: rest)))))) := by
            show (mkIndent ind ++ (dumpsV ind e ++
              ',' :: '\n' :: dumpsElems ind (x :: tx))) ++ _ = _
            rw [List.append_assoc, List.append_assoc]
            rfl
          rw [htext, parseVal_congr f _
            (dumpsV ind e ++ (',' :: '\n' ::
              (dumpsElems ind (x :: tx) ++ ('\n' :: (mkIndent k ++ (']' :: rest))))))
            (by rw [dropWs_mkIndent])]
          rw [rt_val e ind f _ hw2.1 hfe (by rfl)]
          dsimp only
          rw [show dropWs (',' :: '\n' :: (dumpsElems ind (x :: tx) ++
              ('\n' :: (mkIndent k ++ (']' :: rest))))) =
            ',' :: '\n' :: (dumpsElems ind (x :: tx) ++
              ('\n' :: (mkIndent k ++ (']' :: rest)))) from
            dropWs_no_ws ',' _ (by decide)]
          split
          · rename_i r2 heq
            rw [List.cons.injEq] at heq
            have hr2 : r2 = '\n' :: (dumpsElems ind (x :: tx) ++
                ('\n' :: (mkIndent k ++ (']' :: rest)))) := heq.2.symm
            subst hr2
            rw [parseElems_congr f _ (dumpsElems ind (x :: tx) ++
              ('\n' :: (mkIndent k ++ (']' :: rest)))) (by rw [dropWs_newline])]
            rw [rt_elems x tx ind k f rest hw2.2 hfx]
          · rename_i r2 heq
            rw [List.cons.injEq] at heq
            exact absurd heq.1 (by decide)
          · rename_i hc1 hc2
            exact absurd rfl (hc1 ('\n' :: (dumpsElems ind (x :: tx) ++
              ('\n' :: (mkIndent k ++ (']' :: rest))))))
  termination_by e es _ _ _ _ _ _ => sizeOf e + sizeOf es
/-- Parsing serialized well-formed members up to the closing brace. -/
theorem rt_entries : ∀ (kv : Str × JValue) (kvs : List (Str × JValue))
    (ind k fuel : Nat) (rest : List Char),
    wfEntriesB (kv :: kvs) = true →
    (dumpsEntries ind (kv :: kvs)).length + 1 < fuel →
    parseEntries fuel (dumpsEntries ind (kv :: kvs) ++
      ('\n' :: (mkIndent k ++ (cbrace :: rest)))) = some (kv :: kvs, rest)
  | (ky, v), [], ind, k, fuel, rest, hw, hf => by
      cases fuel with
      | zero => exact absurd hf (Nat.not_lt_zero _)
      | succ f =>
          have hwe : JValue.wfB v = true := by
            have h2 : (JValue.wfB v && wfEntriesB []) = true := hw
            rw [Bool.and_eq_true] at h2
            exact h2.1
          have hfv : (dumpsV ind v).length < f := by
            have h2 := hf
            rw [show dumpsEntries ind [(ky, v)] = mkIndent ind ++ (encStr ky ++
              ':' :: ' ' :: dumpsV ind v) from rfl] at h2
            simp only [List.length_append, List.length_cons] at h2
            omega
          have hdropl : dropWs (dumpsEntries ind [(ky, v)] ++
              ('\n' :: (mkIndent k ++ (cbrace :: rest)))) =
              '"' :: (escapeAll ky ++ '"' :: (':' :: ' ' ::
                (dumpsV ind v ++ ('\n' :: (mkIndent k ++ (cbrace :: rest)))))) := by
            show dropWs ((mkIndent ind ++ (encStr ky ++ ':' :: ' ' ::
              dumpsV ind v)) ++ ('\n' :: (mkIndent k ++ (cbrace :: rest)))) = _
            rw [List.append_assoc, dropWs_mkIndent]
            unfold encStr
            simp only [List.cons_append, List.nil_append, List.append_assoc]
            rw [dropWs_no_ws '"' _ (by decide)]
          rw [parseEntries_quote f _ _ hdropl]
          rw [strBody_escapeAll ky []]
          show (match parseVal f (' ' :: (dumpsV ind v ++
              ('\n' :: (mkIndent k ++ (cbrace :: rest))))) with
            | none => none
            | some (v2, r3) =>
                match dropWs r3 with
                | ',' :: r4 =>
                    (match parseEntries f r4 with
                     | some p => some ((ky, v2) :: p.1, p.2)
                     | none => none)
                | c :: r4 => if c == cbrace then some ([(ky, v2)], r4) else none
                | [] => none) = some ([(ky, v)], rest)
          rw [parseVal_congr f (' ' :: (dumpsV ind v ++
            ('\n' :: (mkIndent k ++ (cbrace :: rest)))))
            (dumpsV ind v ++ ('\n' :: (mkIndent k ++ (cbrace :: rest))))
            (by rw [dropWs_space])]
          rw [rt_val v ind f _ hwe hfv (by rfl)]
          dsimp only
          rw [show dropWs ('\n' :: (mkIndent k ++ (cbrace :: rest))) =
            cbrace :: rest from by
            rw [dropWs_newline, dropWs_mkIndent, dropWs_no_ws cbrace rest (by decide)]]
          exact rfl
  | (ky, v), kv2 :: t2, ind, k, fuel, rest, hw, hf => by
      cases fuel with
      | zero => exact absurd hf (Nat.not_lt_zero _)
      | succ f =>
          have hw2 : (JValue.wfB v && wfEntriesB (kv2 :: t2)) = true := hw
          rw [Bool.and_eq_true] at hw2
          have hfv : (dumpsV ind v).length < f := by
            have h2 := hf
            rw [show dumpsEntries ind ((ky, v) :: kv2 :: t2) = mkIndent ind ++
              (encStr ky ++ ':' :: ' ' :: (dumpsV ind v ++
                ',' :: '\n' :: dumpsEntries ind (kv2 :: t2))) from rfl] at h2
            simp only [List.length_append, List.length_cons] at h2
            omega
          have hft : (dumpsEntries ind (kv2 :: t2)).length + 1 < f := by
            have h2 := hf
            rw [show dumpsEntries ind ((ky, v) :: kv2 :: t2) = mkIndent ind ++
              (encStr ky ++ ':' :: ' ' :: (dumpsV ind v ++
                ',' :: '\n' :: dumpsEntries ind (kv2 :: t2))) from rfl] at h2
            simp only [List.length_append, List.length_cons] at h2
            omega
          have hdropl : dropWs (dumpsEntries ind ((ky, v) :: kv2 :: t2) ++
              ('\n' :: (mkIndent k ++ (cbrace :: rest)))) =
              '"' :: (escapeAll ky ++ '"' :: (':' :: ' ' ::
                (dumpsV ind v ++ (',' :: '\n' :: (dumpsEntries ind (kv2 :: t2) ++
                  ('\n' :: (mkIndent k ++ (cbrace :: rest)))))))) := by
            show dropWs ((mkIndent ind ++ (encStr ky ++ ':' :: ' ' ::
              (dumpsV ind v ++ ',' :: '\n' :: dumpsEntries ind (kv2 :: t2)))) ++
              ('\n' :: (mkIndent k ++ (cbrace :: rest)))) = _
            rw [List.append_assoc, dropWs_mkIndent]
            unfold encStr
            simp only [List.cons_append, List.nil_append, List.append_assoc]
            rw [dropWs_no_ws '"' _ (by decide)]
          rw [parseEntries_quote f _ _ hdropl]
          rw [strBody_escapeAll ky []]
          show (match parseVal f (' ' :: (dumpsV ind v ++
              (',' :: '\n' :: (dumpsEntries ind (kv2 :: t2) ++
                ('\n' :: (mkIndent k ++ (cbrace :: rest))))))) with
            | none => none
            | some (v2, r3) =>
                match dropWs r3 with
                | ',' :: r4 =>
                    (match parseEntries f r4 with
                     | some p => some ((ky, v2) :: p.1, p.2)
                     | none => none)
                | c :: r4 => if c == cbrace then some ([(ky, v2)], r4) else none
                | [] => none) = some ((ky, v) :: kv2 :: t2, rest)
          rw [parseVal_congr f (' ' :: (dumpsV ind v ++
            (',' :: '\n' :: (dumpsEntries ind (kv2 :: t2) ++
              ('\n' :: (mkIndent k ++ (cbrace :: rest)))))))
            (dumpsV ind v ++ (',' :: '\n' :: (dumpsEntries ind (kv2 :: t2) ++
              ('\n' :: (mkIndent k ++ (cbrace :: rest))))))
            (by rw [dropWs_space])]
          rw [rt_val v ind f _ hw2.1 hfv (by rfl)]
          dsimp only
          show (match parseEntries f ('\n' :: (dumpsEntries ind (kv2 :: t2) ++
              ('\n' :: (mkIndent k ++ (cbrace :: rest))))) with
            | some p => some ((ky, v) :: p.1, p.2)
            | none => none) = some ((ky, v) :: kv2 :: t2, rest)
          rw [parseEntries_congr f ('\n' :: (dumpsEntries ind (kv2 :: t2) ++
            ('\n' :: (mkIndent k ++ (cbrace :: rest)))))
            (dumpsEntries ind (kv2 :: t2) ++
              ('\n' :: (mkIndent k ++ (cbrace :: rest)))) (by rw [dropWs_newline])]
          rw [rt_entries kv2 t2 ind k f rest hw2.2 hft]
  termination_by kv kvs _ _ _ _ _ _ => sizeOf kv + sizeOf kvs
end

/-- `json.loads` inverts `json.dumps` on documents with pairwise-distinct
object keys (every document arising from a Python `dict` satisfies this). -/
theorem json_loads_dumps (doc : JValue) (h : JValue.wfB doc = true) :
    json_loads (json_dumps doc) = some doc := by
  have h1 : parseVal ((dumpsV 0 doc).length + 1) (dumpsV 0 doc ++ []) =
      some (doc, []) :=
    rt_val doc 0 ((dumpsV 0 doc).length + 1) [] h (Nat.lt_succ_self _) (by rfl)
  rw [List.append_nil] at h1
  unfold json_loads json_dumps
  rw [show (dumpsV 0 doc).length = (json_dumps doc).length from rfl] at h1
  rw [show json_dumps doc = dumpsV 0 doc from rfl] at h1
  rw [h1]
  exact rfl

/-- If no `c1 c2` pair occurs in `a :: t`, none occurs in `t`. -/
theorem twoCharsAt_tail (c1 c2 a : Char) (t : List Char)
    (h : twoCharsAt c1 c2 (a :: t) = false) : twoCharsAt c1 c2 t = false := by
  cases t with
  | nil => rfl
  | cons b t2 =>
      have h2 : ((a == c1 && b == c2) || twoCharsAt c1 c2 (b :: t2)) = false := h
      rw [Bool.or_eq_false_iff] at h2
      exact h2.2

/-- If no `c1 c2` pair occurs, the first two characters are not `c1 c2`. -/
theorem twoCharsAt_head (c1 c2 a b : Char) (t : List Char)
    (h : twoCharsAt c1 c2 (a :: b :: t) = false) : (a == c1 && b == c2) = false := by
  have h2 : ((a == c1 && b == c2) || twoCharsAt c1 c2 (b :: t)) = false := h
  rw [Bool.or_eq_false_iff] at h2
  exact h2.1

/-- Substitution markers in a tail. -/
theorem has_subst_markers_tail (a : Char) (t : List Char)
    (h : has_subst_markers (a :: t) = false) : has_subst_markers t = false := by
  unfold has_subst_markers at h
  unfold has_subst_markers
  rw [Bool.or_eq_false_iff] at h
  rw [Bool.or_eq_false_iff]
  exact ⟨twoCharsAt_tail _ _ _ _ h.1, twoCharsAt_tail _ _ _ _ h.2⟩

/-- Comment markers in a tail. -/
theorem has_comment_marker_tail (a : Char) (t : List Char)
    (h : has_comment_marker (a :: t) = false) : has_comment_marker t = false :=
  twoCharsAt_tail _ _ _ _ h

/-- Step equation of the template renderer on a non-empty text. -/
theorem renderTpl_cons (ctx : List (Str × Str)) (f : Nat) (a : Char) (t : List Char) :
    renderTpl ctx (f + 1) (a :: t) =
      (if a == obrace then
        match t with
        | [] => some [a]
        | b :: t2 =>
            if b == obrace then
              match splitAtCloser cbrace cbrace t2 with
              | none => none
              | some (inner, after) =>
                  if isIdent (pyStrip inner) then
                    match renderTpl ctx f after with
                    | some out => some (((alookup (pyStrip inner) ctx).getD []) ++ out)
                    | none => none
                  else none
            else if b == '%' then none
            else if b == '#' then
              match splitAtCloser '#' cbrace t2 with
              | none => none
              | some p => renderTpl ctx f p.2
            else
              match renderTpl ctx f t with
              | some out => some (a :: out)
              | none => none
      else
        match renderTpl ctx f t with
        | some out => some (a :: out)
        | none => none) := rfl

/-- A text with no substitution opener and no comment opener renders to
itself, for any context. -/
theorem renderTpl_id (ctx : List (Str × Str)) : ∀ (f : Nat) (l : List Char),
    l.length < f → has_subst_markers l = false → has_comment_marker l = false →
    renderTpl ctx f l = some l := by
  intro f
  induction f with
  | zero => intro l hl _ _; exact absurd hl (Nat.not_lt_zero _)
  | succ f ih =>
      intro l hl hs hc
      cases l with
      | nil => rfl
      | cons a t =>
          have hlt : t.length < f := by
            simp only [List.length_cons] at hl
            omega
          have hst : has_subst_markers t = false := has_subst_markers_tail a t hs
          have hct : has_comment_marker t = false := has_comment_marker_tail a t hc
          rw [renderTpl_cons]
          by_cases ha : (a == obrace) = true
          · rw [if_pos ha]
            cases t with
            | nil => rfl
            | cons b t2 =>
                have hs1 : (twoCharsAt obrace obrace (a :: b :: t2) ||
                    twoCharsAt obrace '%' (a :: b :: t2)) = false := hs
                rw [Bool.or_eq_false_iff] at hs1
                have hb1 : (b == obrace) = false := by
                  have hh := twoCharsAt_head obrace obrace a b t2 hs1.1
                  rw [Bool.and_eq_false_iff] at hh
                  cases hh with
                  | inl h1 => exact absurd ha (by rw [h1]; intro hcon; cases hcon)
                  | inr h1 => exact h1
                have hb2 : (b == '%') = false := by
                  have hh := twoCharsAt_head obrace '%' a b t2 hs1.2
                  rw [Bool.and_eq_false_iff] at hh
                  cases hh with
                  | inl h1 => exact absurd ha (by rw [h1]; intro hcon; cases hcon)
                  | inr h1 => exact h1
                have hb3 : (b == '#') = false := by
                  have hh := twoCharsAt_head obrace '#' a b t2 hc
                  rw [Bool.and_eq_false_iff] at hh
                  cases hh with
                  | inl h1 => exact absurd ha (by rw [h1]; intro hcon; cases hcon)
                  | inr h1 => exact h1
                dsimp only
                rw [if_neg (by rw [hb1]; intro hcon; cases hcon),
                    if_neg (by rw [hb2]; intro hcon; cases hcon),
                    if_neg (by rw [hb3]; intro hcon; cases hcon)]
                rw [ih (b :: t2) hlt hst hct]
          · rw [if_neg ha, ih t hlt hst hct]

/-- C5 (corrected): on top of the spec's no-substitution-marker condition a
comment opener must also be excluded; with both exclusions, rendering a
document with pairwise-distinct object keys against the empty context
succeeds and returns the document itself: the serialized text renders to
itself and `json.loads` inverts `json.dumps`. -/
theorem C5_render_roundtrip (doc : JValue)
    (hw : JValue.wfB doc = true)
    (hs : has_subst_markers (json_dumps doc) = false)
    (hc : has_comment_marker (json_dumps doc) = false) :
    render_config_template doc [] = Except.ok doc := by
  unfold render_config_template render_string
  rw [renderTpl_id [] ((json_dumps doc).length + 1) (json_dumps doc)
    (Nat.lt_succ_self _) hs hc]
  dsimp only
  rw [json_loads_dumps doc hw]

/-- Witness for C5: a concrete marker-free document round-trips. -/
theorem C5_render_roundtrip_witness :
    JValue.wfB (JValue.obj [("x".data, JValue.str "hi".data)]) = true ∧
    has_subst_markers (json_dumps (JValue.obj [("x".data, JValue.str "hi".data)])) = false ∧
    has_comment_marker (json_dumps (JValue.obj [("x".data, JValue.str "hi".data)])) = false ∧
    render_config_template (JValue.obj [("x".data, JValue.str "hi".data)]) [] =
      Except.ok (JValue.obj [("x".data, JValue.str "hi".data)]) :=
  ⟨rfl, rfl, rfl, C5_render_roundtrip (JValue.obj [("x".data, JValue.str "hi".data)]) rfl rfl rfl⟩

/-- C5 counterexample: the document whose single value is the string
comment text (opening bracket, hash, ` c `, hash, closing bracket) has a
serialization free of both substitution markers, yet rendering it against
the empty context does not return the document: the comment is consumed
and the value comes back as the empty string. -/
theorem C5_counterexample :
    has_subst_markers (json_dumps (JValue.obj [("x".data,
      JValue.str "\x7b# c #\x7d".data)])) = false ∧
    render_config_template (JValue.obj [("x".data,
      JValue.str "\x7b# c #\x7d".data)]) [] ≠
      Except.ok (JValue.obj [("x".data, JValue.str "\x7b# c #\x7d".data)]) := by
  constructor
  · rfl
  · intro h
    rw [show render_config_template (JValue.obj [("x".data,
      JValue.str "\x7b# c #\x7d".data)]) [] =
      Except.ok (JValue.obj [("x".data, JValue.str [])]) from rfl] at h
    injection h with h3
    have h4 := congrArg json_dumps h3
    exact absurd h4 (by decide)
